import Mathlib

/-!
Verification development for the pingmem repository.

The repository consists of four Python scripts:
* `core/scripts/register-hooks.py` — the configuration merge engine: it loads
  `~/.claude/settings.json`, merges three fixed hook command bindings into the
  `hooks.PostToolUse` / `hooks.UserPromptSubmit` matcher-group lists, writes the
  document back wholesale on success, and exits 0/1.
* `core/hooks/github-issue-automation.py` — detects errors in tool results and
  queues them (deduplicated by file+category) into `pending-issues.json`.
* `core/hooks/memory-update-posttooluse.py` — wrapper invoking an external
  memory-update script.
* `core/hooks/pending-issues-check.py` — formats queued issues into a reminder.

The Python programs operate on JSON documents (`json.load` results).  We embed
JSON values as the inductive type `J` (numbers as `Int`; JSON floats do not
occur in any document the scripts construct and are not modelled), and embed
each Python operation used by the scripts (`d[k]`, `d[k] = v`, `d.get(k, def)`,
`k in d`, `l.append(x)`, iteration) as a function into `Except PyErr` mirroring
the exception behaviour of the corresponding Python operation on each `J`
constructor.  The scripts' control flow is translated statement by statement
into the `Except PyErr` monad; `sys.exit` codes and file writes are represented
by explicit result values.
-/

/-- The classes of Python exception that the embedded operations can raise. -/
inductive PyErr where
  | attributeError
  | typeError
  | keyError
  | valueError
deriving DecidableEq, Repr

/-- JSON values, as produced by `json.load` (numbers restricted to integers;
the scripts never construct floats). Objects are insertion-ordered key/value
lists with distinct keys, matching Python dict semantics. -/
inductive J where
  | null
  | jb (b : Bool)
  | jn (n : Int)
  | js (s : String)
  | jarr (xs : List J)
  | jobj (kvs : List (String × J))
deriving Repr

open J

/-- Lookup of a key in an object's field list (Python `dict` lookup). -/
def jlookup (k : String) : List (String × J) → Option J
  | [] => none
  | (k2, v) :: rest => if k2 = k then some v else jlookup k rest

/-- Python `d[k] = v` on a dict's field list: replace in place if the key
exists (keeping its position, as CPython dicts do), else append. -/
def setKey (k : String) (v : J) : List (String × J) → List (String × J)
  | [] => [(k, v)]
  | (k2, w) :: rest => if k2 = k then (k, v) :: rest else (k2, w) :: setKey k v rest

/-- Python `x == s` where `s` is a string literal: true exactly when `x` is an
equal string (no builtin cross-type equality involves strings). -/
def isStrEq (v : J) (s : String) : Bool :=
  match v with
  | .js t => t == s
  | _ => false

/-- Auxiliary substring scan: is `needle` a contiguous sublist of the hay? -/
def substrAux (needle : List Char) : List Char → Bool
  | [] => needle.isEmpty
  | c :: rest => List.isPrefixOf needle (c :: rest) || substrAux needle rest

/-- `needle in hay` for Python strings: substring test. -/
def substrB (needle hay : String) : Bool :=
  substrAux needle.data hay.data

/-- Python subscript read `x[k]` with a string key:
`KeyError` on a dict missing the key, `TypeError` on every non-dict. -/
def pyGetItem : J → String → Except PyErr J
  | .jobj kvs, k =>
    match jlookup k kvs with
    | some v => .ok v
    | none => .error .keyError
  | _, _ => .error .typeError

/-- Python subscript write `x[k] = v`:
`TypeError` on every non-dict (lists reject string indices). -/
def pySetItem : J → String → J → Except PyErr J
  | .jobj kvs, k, v => .ok (.jobj (setKey k v kvs))
  | _, _, _ => .error .typeError

/-- Python `x.get(k, d)`: only dicts have `.get`; every other value raises
`AttributeError`. -/
def pyDotGet : J → String → J → Except PyErr J
  | .jobj kvs, k, d => .ok ((jlookup k kvs).getD d)
  | _, _, _ => .error .attributeError

/-- Python `k in x` for a string `k`: key test on dicts, element test on lists
(string equality, since `==` between a string and a non-string is `False`),
substring test on strings, `TypeError` otherwise. -/
def pyContains : J → String → Except PyErr Bool
  | .jobj kvs, k => .ok (kvs.any (fun kv => kv.1 == k))
  | .jarr xs, k => .ok (xs.any (fun v => isStrEq v k))
  | .js s, k => .ok (substrB k s)
  | _, _ => .error .typeError

/-- Python `x.append(v)`: only lists have `.append`. -/
def pyAppend : J → J → Except PyErr J
  | .jarr xs, v => .ok (.jarr (xs ++ [v]))
  | _, _ => .error .attributeError

/-- Python iteration `for e in x`: lists yield elements, dicts yield keys,
strings yield one-character strings, other values raise `TypeError`. -/
def pyIter : J → Except PyErr (List J)
  | .jarr xs => .ok xs
  | .jobj kvs => .ok (kvs.map (fun kv => J.js kv.1))
  | .js s => .ok (s.data.map (fun c => J.js (String.singleton c)))
  | _ => .error .typeError

/-- Membership of the string `s` (as a Python string) in a list of values,
as used by `cmd not in existing_commands`. -/
def jmem (s : String) (l : List J) : Bool :=
  l.any (fun v => isStrEq v s)

/-! ## The register-hooks merge engine (`core/scripts/register-hooks.py`)

`Path.home()` is an environment input of the script; it is embedded as the
fixed string `homePath`.  The three hook command strings below are the
script's hard-coded desired bindings. -/

/-- The home directory string (`Path.home()` of the run). -/
def homePath : String := "/home/user"

/-- `memory_hook` of `register_hooks` (line 40). -/
def memCmd : String := "python3 " ++ homePath ++ "/.claude/hooks/memory-update-posttooluse.py"

/-- `github_hook` of `register_hooks` (line 41). -/
def ghCmd : String := "python3 " ++ homePath ++ "/.claude/hooks/github-issue-automation.py"

/-- `pending_hook` of `register_hooks` (line 42). -/
def pendCmd : String := "python3 " ++ homePath ++ "/.claude/hooks/pending-issues-check.py"

/-- A hook command-binding object `{"type": "command", "command": cmd, "timeout": t}`
as built at lines 65-69, 88-92, 96-100, 117-121, 129-133, 144-148, 156-160. -/
def mkHook (cmd : String) (t : Int) : J :=
  .jobj [("type", .js "command"), ("command", .js cmd), ("timeout", .jn t)]

/-- Lines 30-31: `if 'hooks' not in settings: settings['hooks'] = {}`. -/
def ensureHooksKey (s0 : J) : Except PyErr J := do
  let c ← pyContains s0 "hooks"
  if c then pure s0 else pySetItem s0 "hooks" (.jobj [])

/-- Lines 33-34 / 36-37: `if cat not in settings['hooks']:
settings['hooks'][cat] = []` (the category-list creation). -/
def ensureCatKey (cat : String) (s : J) : Except PyErr J := do
  let h ← pyGetItem s "hooks"
  let cp ← pyContains h cat
  if cp then pure s else do
    let h2 ← pySetItem h cat (.jarr [])
    pySetItem s "hooks" h2

/-- Lines 29-37 of `register_hooks` in sequence. -/
def ensureCats (s0 : J) : Except PyErr J := do
  let s1 ← ensureHooksKey s0
  let s2 ← ensureCatKey "PostToolUse" s1
  ensureCatKey "UserPromptSubmit" s2

/-- The inner loop of lines 47-48 / 51-52: collect `hook.get('command', '')`
for every `hook` in `hook_entry.get('hooks', [])` of every entry. -/
def hookCmds (entry : J) : Except PyErr (List J) := do
  let hs ← pyDotGet entry "hooks" (.jarr [])
  let items ← pyIter hs
  items.mapM (fun h => pyDotGet h "command" (.js ""))

/-- Lines 46-52 for one category value: the command values of all hook
entries, in order. -/
def collectCmds (v : J) : Except PyErr (List J) := do
  let es ← pyIter v
  let ls ← es.mapM hookCmds
  pure ls.flatten

/-- Lines 44-52 of `register_hooks`: the `existing_commands` list, collected
from `settings['hooks'].get('PostToolUse', [])` then
`settings['hooks'].get('UserPromptSubmit', [])`. -/
def scanCommands (s : J) : Except PyErr (List J) := do
  let h ← pyGetItem s "hooks"
  let p ← pyDotGet h "PostToolUse" (.jarr [])
  let c1 ← collectCmds p
  let u ← pyDotGet h "UserPromptSubmit" (.jarr [])
  let c2 ← collectCmds u
  pure (c1 ++ c2)

/-- The applied-list description strings of lines 70, 78/93/101, 122/135, 149/162. -/
def memDesc : String := "memory-update-posttooluse.py (PostToolUse)"

def ghDesc : String := "github-issue-automation.py (PostToolUse)"

def ghCatchDesc : String := "github-issue-automation.py (PostToolUse catchall)"

def pendDesc : String := "pending-issues-check.py (UserPromptSubmit)"

/-- Lines 64-78: inside the matched `'Write|Edit|MultiEdit'` entry, append
`{type, command, timeout: 5}` to `hook_entry['hooks']` when the command is not
among `existing_commands`, recording the description. -/
def appendIfMissing (present : Bool) (cmd desc : String) (e : J) :
    Except PyErr (J × List String) :=
  if present then pure (e, [])
  else do
    let hs ← pyGetItem e "hooks"
    let hs2 ← pyAppend hs (mkHook cmd 5)
    let e2 ← pySetItem e "hooks" hs2
    pure (e2, [desc])

/-- Lines 61-81: scan `settings['hooks']['PostToolUse']` for the first entry
whose `matcher` is `'Write|Edit|MultiEdit'`; on a hit, append the missing
hooks to that entry's `hooks` list and stop (`break`).  Returns `none` when
no entry matches (`write_matcher_exists` stays false). -/
def loop1 (ex : List J) : List J → Except PyErr (Option (List J × List String))
  | [] => pure none
  | e :: rest => do
    let m ← pyDotGet e "matcher" .null
    if isStrEq m "Write|Edit|MultiEdit" then do
      let p1 ← appendIfMissing (jmem memCmd ex) memCmd memDesc e
      let p2 ← appendIfMissing (jmem ghCmd ex) ghCmd ghDesc p1.1
      pure (some (p2.1 :: rest, p1.2 ++ p2.2))
    else do
      let r ← loop1 ex rest
      pure (r.map (fun p => (e :: p.1, p.2)))

/-- Lines 57-107 of `register_hooks` acting on the `PostToolUse` category
value: skipped entirely when both commands are already present; otherwise
either extend the existing `'Write|Edit|MultiEdit'` matcher entry or append a
new one holding the missing hooks. -/
def block1 (ex : List J) (cat : J) : Except PyErr (J × List String) :=
  if jmem memCmd ex && jmem ghCmd ex then pure (cat, [])
  else do
    let es ← pyIter cat
    let r ← loop1 ex es
    match r with
    | some (es2, a) => pure (.jarr es2, a)
    | none =>
      let newHooks := (if jmem memCmd ex then [] else [mkHook memCmd 5])
        ++ (if jmem ghCmd ex then [] else [mkHook ghCmd 5])
      let a := (if jmem memCmd ex then [] else [memDesc])
        ++ (if jmem ghCmd ex then [] else [ghDesc])
      if newHooks.isEmpty then pure (cat, [])
      else do
        let cat2 ← pyAppend cat (.jobj [("matcher", .js "Write|Edit|MultiEdit"), ("hooks", .jarr newHooks)])
        pure (cat2, a)

/-- Line 110's list comprehension `[cmd for cmd in existing_commands if
'github-issue' in cmd]`: `'github-issue' in cmd` is a substring test on a
string, a membership test on a list or dict, and a `TypeError` on every other
value. -/
def ghInTest (v : J) : Except PyErr Bool :=
  match v with
  | .js s => pure (substrB "github-issue" s)
  | .jarr xs => pure (xs.any (fun w => isStrEq w "github-issue"))
  | .jobj kvs => pure (kvs.any (fun kv => kv.1 == "github-issue"))
  | _ => .error .typeError

/-- The comprehension itself, keeping the elements whose test is true. -/
def filterGithub : List J → Except PyErr (List J)
  | [] => pure []
  | v :: rest => do
    let keep ← ghInTest v
    let rest2 ← filterGithub rest
    pure (if keep then v :: rest2 else rest2)

/-- Line 115's generator `any(github_hook == h.get('command') for h in items)`
(short-circuiting, so later elements are not evaluated after a hit). -/
def anyCmdEq (c : String) : List J → Except PyErr Bool
  | [] => pure false
  | h :: rest => do
    let v ← pyDotGet h "command" .null
    if isStrEq v c then pure true else anyCmdEq c rest

/-- Lines 112-124: scan for the first entry whose `matcher` is `'.*'`; on a
hit, append the github hook to its `hooks` list unless already there, and stop. -/
def loop2 : List J → Except PyErr (Option (List J × List String))
  | [] => pure none
  | e :: rest => do
    let m ← pyDotGet e "matcher" .null
    if isStrEq m ".*" then do
      let hs ← pyDotGet e "hooks" (.jarr [])
      let items ← pyIter hs
      let hasGh ← anyCmdEq ghCmd items
      if hasGh then pure (some (e :: rest, []))
      else do
        let hs0 ← pyGetItem e "hooks"
        let hs2 ← pyAppend hs0 (mkHook ghCmd 5)
        let e2 ← pySetItem e "hooks" hs2
        pure (some (e2 :: rest, [ghCatchDesc]))
    else do
      let r ← loop2 rest
      pure (r.map (fun p => (e :: p.1, p.2)))

/-- Lines 109-135 of `register_hooks` acting on the (possibly already
extended) `PostToolUse` category value: the catch-all `'.*'` github entry. -/
def block2 (ex : List J) (cat : J) : Except PyErr (J × List String) := do
  let filtered ← filterGithub ex
  if jmem ghCmd filtered then pure (cat, [])
  else do
    let es ← pyIter cat
    let r ← loop2 es
    match r with
    | some (es2, a) => pure (.jarr es2, a)
    | none => do
      let cat2 ← pyAppend cat (.jobj [("matcher", .js ".*"), ("hooks", .jarr [mkHook ghCmd 5])])
      pure (cat2, [ghCatchDesc])

/-- Lines 141-151: scan `settings['hooks']['UserPromptSubmit']` for the first
entry whose `matcher` is `'.*'`; on a hit, append the pending hook to its
`hooks` list (unconditionally, by direct subscript) and stop. -/
def loop3 : List J → Except PyErr (Option (List J × List String))
  | [] => pure none
  | e :: rest => do
    let m ← pyDotGet e "matcher" .null
    if isStrEq m ".*" then do
      let hs ← pyGetItem e "hooks"
      let hs2 ← pyAppend hs (mkHook pendCmd 3)
      let e2 ← pySetItem e "hooks" hs2
      pure (some (e2 :: rest, [pendDesc]))
    else do
      let r ← loop3 rest
      pure (r.map (fun p => (e :: p.1, p.2)))

/-- Lines 137-162 of `register_hooks` acting on the `UserPromptSubmit`
category value. -/
def block3 (ex : List J) (cat : J) : Except PyErr (J × List String) :=
  if jmem pendCmd ex then pure (cat, [])
  else do
    let es ← pyIter cat
    let r ← loop3 es
    match r with
    | some (es2, a) => pure (.jarr es2, a)
    | none => do
      let cat2 ← pyAppend cat (.jobj [("matcher", .js ".*"), ("hooks", .jarr [mkHook pendCmd 3])])
      pure (cat2, [pendDesc])

/-- The body of the `try` block of `register_hooks` (lines 24-162) after the
document has been parsed: returns the document to be written at line 165
together with the `added` description list.  Any raised exception is the
`Except.error` case (caught at lines 181-183, making the run fail). -/
def registerBody (s0 : J) : Except PyErr (J × List String) := do
  let s ← ensureCats s0
  let ex ← scanCommands s
  let h ← pyGetItem s "hooks"
  let ptu ← pyGetItem h "PostToolUse"
  let (p1, a1) ← block1 ex ptu
  let (p2, a2) ← block2 ex p1
  let ups ← pyGetItem h "UserPromptSubmit"
  let (u1, a3) ← block3 ex ups
  let h2 ← pySetItem h "PostToolUse" p2
  let h3 ← pySetItem h2 "UserPromptSubmit" u1
  let s2 ← pySetItem s "hooks" h3
  pure (s2, a1 ++ a2 ++ a3)

/-- The state of the settings file: absent (line 19), present but not valid
JSON (the `json.JSONDecodeError` case of line 177), or parsed content. -/
inductive FileState where
  | absent
  | invalid
  | content (doc : J)
deriving Repr

/-- The whole of `register_hooks` (lines 12-183) acting on the settings file:
returns the new file state, the boolean result of the function, and the
`added` list.  The file is written (line 165) only on the success path; every
failure (missing file, parse error, exception while processing) leaves the
file as it was. -/
def runRegisterOnFile (fs : FileState) : FileState × Bool × List String :=
  match fs with
  | .absent => (.absent, false, [])
  | .invalid => (.invalid, false, [])
  | .content d =>
    match registerBody d with
    | .error _ => (.content d, false, [])
    | .ok (d2, added) => (.content d2, true, added)

/-- `main` of `register-hooks.py` (lines 185-194): exit status 0 when
`register_hooks()` returned true, 1 otherwise. -/
def mainExitCode (fs : FileState) : Nat :=
  if (runRegisterOnFile fs).2.1 then 0 else 1

/-! ## Observation functions used to state the claims (spec vocabulary) -/

/-- Field read on an object, `none` on everything else. -/
def jGet (d : J) (k : String) : Option J :=
  match d with
  | .jobj kvs => jlookup k kvs
  | _ => none

/-- The category list of a document: `doc["hooks"][cat]`. -/
def catOf (d : J) (cat : String) : Option J :=
  match jGet d "hooks" with
  | some h => jGet h cat
  | none => none

/-- Does a MatcherGroup entry carry the given pattern? -/
def matcherIs (e : J) (pat : String) : Bool :=
  match jGet e "matcher" with
  | some m => isStrEq m pat
  | none => false

/-- Does a CommandBinding entry carry the given command? -/
def cmdIs (h : J) (c : String) : Bool :=
  match jGet h "command" with
  | some v => isStrEq v c
  | none => false

/-- Number of CommandBindings with the given command inside one MatcherGroup. -/
def cmdCount (c : String) (g : J) : Nat :=
  match jGet g "hooks" with
  | some (.jarr hs) => (hs.filter (fun h => cmdIs h c)).length
  | _ => 0

/-- Number of MatcherGroups with the given pattern in a category value. -/
def countGroups (pat : String) (cat : J) : Nat :=
  match cat with
  | .jarr es => (es.filter (fun e => matcherIs e pat)).length
  | _ => 0

/-- Total number of CommandBindings with command `c` across the MatcherGroups
with pattern `pat` of a category value. -/
def totalCmd (pat c : String) (cat : J) : Nat :=
  match cat with
  | .jarr es => (es.map (fun e => if matcherIs e pat then cmdCount c e else 0)).sum
  | _ => 0

/-- Python truthiness of a JSON value (`if not x`). -/
def pyTruthy : J → Bool
  | .null => false
  | .jb b => b
  | .jn n => n != 0
  | .js s => !s.isEmpty
  | .jarr xs => !xs.isEmpty
  | .jobj kvs => !kvs.isEmpty

/-! ## Python value equality (`==`) for the queue-duplicate check

Python `==` on JSON-decoded values: numbers compare by value (`1 == True`
aside, booleans do not occur as file/category values built by the scripts and
cross bool/int equality is not modelled), lists elementwise in order, dicts by
key set irrespective of order. -/

mutual
/-- Python `==` on JSON values. -/
def jeq : J → J → Bool
  | .null, .null => true
  | .jb a, .jb b => a == b
  | .jn a, .jn b => a == b
  | .js a, .js b => a == b
  | .jarr xs, .jarr ys => jeqL xs ys
  | .jobj xs, .jobj ys => Nat.beq xs.length ys.length && jeqEntries xs ys
  | _, _ => false

/-- Elementwise Python `==` on lists. -/
def jeqL : List J → List J → Bool
  | [], [] => true
  | a :: as, b :: bs => jeq a b && jeqL as bs
  | _, _ => false

/-- Every entry of the first dict is present with an equal value in the second. -/
def jeqEntries : List (String × J) → List (String × J) → Bool
  | [], _ => true
  | (k, v) :: rest, ys => jeqFind k v ys && jeqEntries rest ys

/-- Find key `k` in the entry list and compare its value with `v`. -/
def jeqFind : String → J → List (String × J) → Bool
  | _, _, [] => false
  | k, v, (k2, w) :: rest => if k = k2 then jeq v w else jeqFind k v rest
end

/-! ## github-issue-automation.py -/

/-- `'TS' followed by a digit occurs in the string` — the `TS\d+` regex of the
error-pattern list (line 69); `re.search` succeeds exactly when some position
starts `T`, `S`, digit. -/
def tsAux : List Char → Bool
  | c1 :: c2 :: c3 :: rest => (c1 == 'T' && c2 == 'S' && c3.isDigit) || tsAux (c2 :: c3 :: rest)
  | _ => false

/-- `any(re.search(pattern, s) for pattern in error_patterns)` of lines 66-74:
every pattern except `TS\d+` is a literal, i.e. a substring test. -/
def errorPatternMatch (s : String) : Bool :=
  substrB "error" s || substrB "Error" s || substrB "ERROR" s ||
  substrB "FAIL" s || substrB "Failed" s || substrB "Exception" s ||
  substrB "Fatal" s || tsAux s.data ||
  substrB "SyntaxError" s || substrB "TypeError" s || substrB "ReferenceError" s

/-- Lines 85-97 of `detect_error`: classify severity and category from the
error text. -/
def classifyError (s : String) : String × String :=
  if substrB "TS" s || substrB "type" s.toLower then ("high", "type-error")
  else if substrB "syntax" s.toLower then ("high", "syntax-error")
  else if substrB "exception" s.toLower || substrB "fatal" s.toLower then ("critical", "runtime-error")
  else ("medium", "unknown-error")

/-- The `args.get('file_path') or args.get('path') or args.get('notebook_path')
or 'unknown'` chain of lines 78-83 (`or` keeps the first truthy value). -/
def extractFilePath (args : J) : Except PyErr J := do
  let f1 ← pyDotGet args "file_path" .null
  if pyTruthy f1 then pure f1 else do
    let f2 ← pyDotGet args "path" .null
    if pyTruthy f2 then pure f2 else do
      let f3 ← pyDotGet args "notebook_path" .null
      if pyTruthy f3 then pure f3 else pure (.js "unknown")

/-- `detect_error(tool_name, args, result)` of lines 52-107.  `now` stands for
`datetime.utcnow().isoformat()`.  Returns `none` where the source returns
`None`, and the queued error-context dict otherwise. -/
def detectError (toolName args result : J) (now : String) : Except PyErr (Option J) := do
  let errorText : J :=
    match result with
    | .jobj kvs =>
      let e1 := (jlookup "error" kvs).getD .null
      if pyTruthy e1 then e1 else (jlookup "stderr" kvs).getD .null
    | .js s => .js s
    | _ => .null
  if !pyTruthy errorText then pure none
  else do
    let s ← match errorText with
      | .js s => pure s
      | _ => Except.error PyErr.typeError
    if !errorPatternMatch s then pure none
    else do
      let fp ← extractFilePath args
      let (sev, cat) := classifyError s
      pure (some (.jobj [
        ("error_message", .js (s.take 1000)),
        ("source", .js "posttooluse"),
        ("file", fp),
        ("severity", .js sev),
        ("category", .js cat),
        ("detected_at", .js (now ++ "Z")),
        ("tool", toolName)]))

/-- `severity_order.index(v)` of lines 118-121 (`ValueError` when absent;
each comparison is against a string literal). -/
def severityIndex (v : J) : Except PyErr Nat :=
  if isStrEq v "low" then .ok 0
  else if isStrEq v "medium" then .ok 1
  else if isStrEq v "high" then .ok 2
  else if isStrEq v "critical" then .ok 3
  else .error .valueError

/-- `load_config` (lines 30-36): `None` when the file does not exist; a parse
failure propagates (there is no handler inside the function). -/
def loadConfigGh : Option (Except PyErr J) → Except PyErr J
  | none => .ok .null
  | some r => r

/-- `load_pending_issues` of github-issue-automation (lines 38-44): `[]` when
the file does not exist; a parse failure propagates. -/
def loadPendingGh : Option (Except PyErr J) → Except PyErr J
  | none => .ok (.jarr [])
  | some r => r

/-- The duplicate scan of lines 130-133: `existing.get('file') ==
error_context['file'] and existing.get('category') == error_context['category']`,
returning on the first hit (`and` and the loop both short-circuit). -/
def anyDupIn (ctx : J) : List J → Except PyErr Bool
  | [] => pure false
  | e :: rest => do
    let f ← pyDotGet e "file" .null
    let cf ← pyGetItem ctx "file"
    if jeq f cf then do
      let c ← pyDotGet e "category" .null
      let cc ← pyGetItem ctx "category"
      if jeq c cc then pure true else anyDupIn ctx rest
    else anyDupIn ctx rest

/-- The line-113 guard of `queue_issue`:
`not config or not config.get('detection', {}).get('enabled')` (short-circuit:
the `.get` chain is only evaluated when `config` is truthy). -/
def queueProceed (config : J) : Except PyErr Bool :=
  if !pyTruthy config then pure false
  else do
    let det ← pyDotGet config "detection" (.jobj [])
    let en ← pyDotGet det "enabled" .null
    pure (pyTruthy en)

/-- `queue_issue(error_context)` of lines 109-144.  `cfgLoad` / `pendLoad`
describe the two files (`none` = missing, otherwise the parse outcome).
Returns `some l` when `save_pending_issues(l)` is executed (line 137) and
`none` when the function returns without saving. -/
def queueIssue (cfgLoad pendLoad : Option (Except PyErr J)) (ctx : J) :
    Except PyErr (Option (List J)) := do
  let config ← loadConfigGh cfgLoad
  let proceed ← queueProceed config
  if !proceed then pure none
  else do
    let det ← pyDotGet config "detection" (.jobj [])
    let st ← pyDotGet det "severity_thresholds" (.jobj [])
    let thr ← pyDotGet st "auto_create_above" (.js "high")
    let sevv ← pyGetItem ctx "severity"
    let ei ← severityIndex sevv
    let ti ← severityIndex thr
    if ei < ti then pure none
    else do
      let pq ← loadPendingGh pendLoad
      let es ← pyIter pq
      let dup ← anyDupIn ctx es
      if dup then pure none
      else do
        let pq2 ← pyAppend pq ctx
        match pq2 with
        | .jarr l => pure (some l)
        | _ => pure none

/-- The inputs of one run of github-issue-automation's `main`: the parse
outcome of the `CLAUDE_HOOK_INPUT` environment variable, the two file states,
and the timestamp. -/
structure GhWorld where
  envInput : Except PyErr J
  cfgLoad : Option (Except PyErr J)
  pendLoad : Option (Except PyErr J)
  now : String

/-- The body of the `try` block of github-issue-automation's `main`
(lines 148-164). -/
def githubBody (w : GhWorld) : Except PyErr (Option (List J)) := do
  let hookInput ← w.envInput
  let toolData ← pyDotGet hookInput "tool" (.jobj [])
  let toolName ← pyDotGet toolData "name" (.js "unknown")
  let toolArgs ← pyDotGet toolData "args" (.jobj [])
  let toolResult ← pyDotGet hookInput "result" (.jobj [])
  let ectx ← detectError toolName toolArgs toolResult w.now
  match ectx with
  | none => pure none
  | some ctx => queueIssue w.cfgLoad w.pendLoad ctx

/-- github-issue-automation's `main` (lines 146-168): `sys.exit(0)` at the end
of the `try` block and `sys.exit(0)` again in the catch-all handler. -/
def githubExitCode (w : GhWorld) : Nat :=
  match githubBody w with
  | .ok _ => 0
  | .error _ => 0

/-! ## memory-update-posttooluse.py -/

/-- Lines 31-36 of memory-update-posttooluse: the same `or` chain as in
`detect_error`, but with final fallback `None` instead of `'unknown'`. -/
def extractFilePathMem (args : J) : Except PyErr J := do
  let f1 ← pyDotGet args "file_path" .null
  if pyTruthy f1 then pure f1 else do
    let f2 ← pyDotGet args "path" .null
    if pyTruthy f2 then pure f2 else do
      let f3 ← pyDotGet args "notebook_path" .null
      if pyTruthy f3 then pure f3 else pure .null

/-- The inputs of one run of memory-update-posttooluse's `main`: the hook
input parse outcome, the two `os.path.isfile` probes of lines 45/49, and the
outcome of the `subprocess.run` call of lines 54-60 (`TimeoutExpired` and
friends are `Exception`s; `typeError` stands in for any of them). -/
structure MemWorld where
  envInput : Except PyErr J
  hookScriptHere : Bool
  hookScriptParent : Bool
  subprocOutcome : Except PyErr Unit

/-- The body of the `try` block of memory-update-posttooluse's `main`
(lines 17-63). -/
def memoryBody (w : MemWorld) : Except PyErr Unit := do
  let hookInput ← w.envInput
  let toolData ← pyDotGet hookInput "tool" (.jobj [])
  let toolName ← pyDotGet toolData "name" (.js "unknown")
  let toolArgs ← pyDotGet toolData "args" (.jobj [])
  let _toolResult ← pyDotGet hookInput "result" (.jobj [])
  if !(isStrEq toolName "Write" || isStrEq toolName "Edit" ||
       isStrEq toolName "MultiEdit" || isStrEq toolName "NotebookEdit") then pure ()
  else do
    let fp ← extractFilePathMem toolArgs
    if !pyTruthy fp then pure ()
    else if !w.hookScriptHere && !w.hookScriptParent then pure ()
    else w.subprocOutcome

/-- memory-update-posttooluse's `main` (lines 14-68): `sys.exit(0)` on the
normal path and in the catch-all handler alike. -/
def memoryExitCode (w : MemWorld) : Nat :=
  match memoryBody w with
  | .ok _ => 0
  | .error _ => 0

/-! ## pending-issues-check.py -/

/-- Python `len(x)`: defined for strings, lists and dicts, `TypeError`
otherwise. -/
def pyLen : J → Except PyErr Nat
  | .js s => .ok s.length
  | .jarr xs => .ok xs.length
  | .jobj kvs => .ok kvs.length
  | _ => .error .typeError

/-- `load_pending_issues` of pending-issues-check (lines 21-30): `[]` when the
file is missing, and — unlike the github script — `[]` again when reading or
parsing fails (bare `except`). -/
def loadPendingRelaxed : Option (Except PyErr J) → J
  | none => .jarr []
  | some (.error _) => .jarr []
  | some (.ok v) => v

/-- The severity-emoji dict `.get(issue['severity'], '⚪')` of lines 34-39:
unhashable keys (lists, dicts) raise `TypeError`; any other non-matching key
falls back to the default. -/
def emojiFor (sev : J) : Except PyErr String :=
  match sev with
  | .jarr _ => .error .typeError
  | .jobj _ => .error .typeError
  | .js s =>
    .ok (if s = "critical" then "🔴" else if s = "high" then "🟠"
      else if s = "medium" then "🟡" else if s = "low" then "🟢" else "⚪")
  | _ => .ok "⚪"

/-- `str.title()`: uppercase the first character of each alphabetic run,
lowercase the rest. -/
def titleAux : Bool → List Char → List Char
  | _, [] => []
  | prevAlpha, c :: rest =>
    if c.isAlpha then
      (if prevAlpha then c.toLower else c.toUpper) :: titleAux true rest
    else c :: titleAux false rest

/-- Python `s.title()`. -/
def pyTitle (s : String) : String := ⟨titleAux false s.data⟩

/-- Python slicing `x[:n]`: defined for strings and lists, `TypeError`
otherwise. -/
def pySlice (v : J) (n : Nat) : Except PyErr J :=
  match v with
  | .js s => .ok (.js (s.take n))
  | .jarr xs => .ok (.jarr (xs.take n))
  | _ => .error .typeError

mutual
/-- Python `str()` of a JSON value, used only to interpolate values into the
reminder text (no claim observes the rendered text). -/
def pyStr : J → String
  | .null => "None"
  | .jb true => "True"
  | .jb false => "False"
  | .jn n => toString n
  | .js s => s
  | .jarr xs => "[" ++ pyStrList xs ++ "]"
  | .jobj kvs => "\x7b" ++ pyStrObj kvs ++ "\x7d"

/-- Comma-separated rendering of list elements. -/
def pyStrList : List J → String
  | [] => ""
  | [x] => pyStr x
  | x :: rest => pyStr x ++ ", " ++ pyStrList rest

/-- Comma-separated rendering of dict entries. -/
def pyStrObj : List (String × J) → String
  | [] => ""
  | [(k, v)] => k ++ ": " ++ pyStr v
  | (k, v) :: rest => k ++ ": " ++ pyStr v ++ ", " ++ pyStrObj rest
end

/-- `format_issue_context(issue)` of lines 32-46, with the dict subscripts,
the emoji lookup, `.replace('-', ' ').title()` and the `[:200]` slice embedded
at the places they are evaluated. -/
def formatIssue (issue : J) : Except PyErr String := do
  let sev ← pyGetItem issue "severity"
  let emoji ← emojiFor sev
  let cat ← pyGetItem issue "category"
  let catTitle ← match cat with
    | .js s => pure (pyTitle (s.replace "-" " "))
    | _ => Except.error PyErr.attributeError
  let file ← pyGetItem issue "file"
  let det ← pyGetItem issue "detected_at"
  let em ← pyGetItem issue "error_message"
  let emCut ← pySlice em 200
  pure ("\n" ++ emoji ++ " **" ++ catTitle ++ "** in `" ++ pyStr file ++
    "`\n- Severity: " ++ pyStr sev ++ "\n- Detected: " ++ pyStr det ++
    "\n- Error: " ++ pyStr emCut ++ "...\n")

/-- The body of pending-issues-check's `main` (lines 48-72).  Unlike the other
two hooks there is no `try` around it: an exception escapes `main`. -/
def pendingBody (q : Option (Except PyErr J)) : Except PyErr Unit := do
  let pending := loadPendingRelaxed q
  if !pyTruthy pending then pure ()
  else do
    let _n ← pyLen pending
    let items ← pyIter pending
    let _parts ← items.mapM formatIssue
    pure ()

/-- pending-issues-check's exit status: 0 on the two `sys.exit(0)` paths, and
the CPython uncaught-exception status 1 when the body raises. -/
def pendingExitCode (q : Option (Except PyErr J)) : Nat :=
  match pendingBody q with
  | .ok _ => 0
  | .error _ => 1

/-! ## Concrete documents and result values used by individual claims -/

/-- The MatcherGroup `register_hooks` creates for the two file-modification
hooks when no `'Write|Edit|MultiEdit'` group exists (lines 103-107). -/
def writeGroupFull : J :=
  .jobj [("matcher", .js "Write|Edit|MultiEdit"), ("hooks", .jarr [mkHook memCmd 5, mkHook ghCmd 5])]

/-- The catch-all group created at lines 127-134. -/
def catchGroup : J :=
  .jobj [("matcher", .js ".*"), ("hooks", .jarr [mkHook ghCmd 5])]

/-- The `UserPromptSubmit` group created at lines 154-161. -/
def pendGroup : J :=
  .jobj [("matcher", .js ".*"), ("hooks", .jarr [mkHook pendCmd 3])]

/-- A parseable document whose `PostToolUse` list starts with a bare string
followed by a valid, not-yet-populated MatcherGroup. -/
def bareStringDoc : J :=
  .jobj [("hooks", .jobj [
    ("PostToolUse", .jarr [.js "bare",
      .jobj [("matcher", .js "Write|Edit|MultiEdit"), ("hooks", .jarr [])]]),
    ("UserPromptSubmit", .jarr [])])]

/-- A well-formed document in which the memory hook command is already
registered — but under `UserPromptSubmit`, not under the
`'Write|Edit|MultiEdit'` group of `PostToolUse`. -/
def memElsewhereDoc : J :=
  .jobj [("hooks", .jobj [
    ("PostToolUse", .jarr []),
    ("UserPromptSubmit", .jarr [
      .jobj [("matcher", .js "x"), ("hooks", .jarr [.jobj [("command", .js memCmd)]])]])])]

/-- A queue entry every field access of `format_issue_context` succeeds on. -/
def sampleIssue : J :=
  .jobj [("severity", .js "high"), ("category", .js "type-error"), ("file", .js "a.py"),
    ("detected_at", .js "2025-01-01T00:00:00Z"), ("error_message", .js "boom")]

/-- An issue-tracking config with detection enabled and default thresholds. -/
def cfgEnabled : J := .jobj [("detection", .jobj [("enabled", .jb true)])]

/-- An error context at severity `high` (the default threshold). -/
def sampleCtx : J :=
  .jobj [("file", .js "a.py"), ("category", .js "type-error"), ("severity", .js "high")]

/-- A document with an unknown root field and unknown sibling fields inside an
existing MatcherGroup and an existing CommandBinding. -/
def frameDoc : J :=
  .jobj [("comment", .js "do not touch"), ("hooks", .jobj [
    ("PostToolUse", .jarr [
      .jobj [("matcher", .js "Write|Edit|MultiEdit"), ("custom", .jn 7),
        ("hooks", .jarr [.jobj [("command", .js "other"), ("note", .jb true)]])]]),
    ("UserPromptSubmit", .jarr [.jobj [("matcher", .js ".*"), ("hooks", .jarr [])]])])]

/-- The duplicate-key observation of the queue-dedup claim: Python-equal
`file` and Python-equal `category` (reading the fields the way the scan does,
with a `None` default). -/
def dupKeyB (e ctx : J) : Bool :=
  jeq ((jGet e "file").getD .null) ((jGet ctx "file").getD .null) &&
  jeq ((jGet e "category").getD .null) ((jGet ctx "category").getD .null)

/-- Values on which Python `'github-issue' in cmd` is defined (strings, lists
and dicts); on numbers, booleans and `None` the test raises `TypeError`. -/
def inableB : J → Bool
  | .js _ => true
  | .jarr _ => true
  | .jobj _ => true
  | _ => false

/-- A pending-issues queue entry that `format_issue_context` can process: a
dict carrying `severity` (hashable), a string `category`, `file` and
`detected_at` present, and a sliceable `error_message`. -/
def wfIssue (i : J) : Bool :=
  match i with
  | .jobj kvs =>
    (match jlookup "severity" kvs with
     | some (.jarr _) => false
     | some (.jobj _) => false
     | some _ => true
     | none => false) &&
    (match jlookup "category" kvs with
     | some (.js _) => true
     | _ => false) &&
    (jlookup "file" kvs).isSome &&
    (jlookup "detected_at" kvs).isSome &&
    (match jlookup "error_message" kvs with
     | some (.js _) => true
     | some (.jarr _) => true
     | _ => false)
  | _ => false

/-- The frame relation between a MatcherGroup entry after a merge run and the
same entry before it: the entry is unchanged, or it is the same object with
only its `hooks` list extended at the end (all sibling keys, and all
pre-existing CommandBinding objects, are untouched). -/
def frameOf (new old : J) : Prop :=
  new = old ∨ ∃ kvs hsl tail, old = J.jobj kvs ∧
    jlookup "hooks" kvs = some (J.jarr hsl) ∧
    new = J.jobj (setKey "hooks" (J.jarr (hsl ++ tail)) kvs)

/-- The hooks list of the pre-existing `'Write|Edit|MultiEdit'` group of the
group-reuse scenario. -/
def reuseHooks : List J := [mkHook memCmd 5, mkHook pendCmd 3]

/-- The field list of the pre-existing `'Write|Edit|MultiEdit'` group of the
group-reuse scenario. -/
def reuseGroupKvs : List (String × J) :=
  [("matcher", J.js "Write|Edit|MultiEdit"), ("hooks", J.jarr reuseHooks)]

/-- The group-reuse input document: one `PostToolUse` group whose matcher is
`'Write|Edit|MultiEdit'`, holding the memory hook and (oddly filed) the
pending hook. -/
def reuseDoc : J := J.jobj [("hooks", J.jobj [("PostToolUse", J.jarr [J.jobj reuseGroupKvs])])]

/-- The hooks-object field list of `reuseDoc` after the category creation. -/
def reuseHkvs : List (String × J) :=
  [("PostToolUse", J.jarr [J.jobj reuseGroupKvs]), ("UserPromptSubmit", J.jarr [])]

/-- The root field list of `reuseDoc` after the category creation. -/
def reuseSkvs : List (String × J) := [("hooks", J.jobj reuseHkvs)]

/-- The document produced by `register_hooks` on `frameDoc`. -/
def frameResult : J :=
  .jobj [("comment", .js "do not touch"), ("hooks", .jobj [
    ("PostToolUse", .jarr [
      .jobj [("matcher", .js "Write|Edit|MultiEdit"), ("custom", .jn 7),
        ("hooks", .jarr [.jobj [("command", .js "other"), ("note", .jb true)],
          mkHook memCmd 5, mkHook ghCmd 5])],
      catchGroup]),
    ("UserPromptSubmit", .jarr [pendGroup])])]


/-! ## Basic lemmas about the embedded primitives -/

theorem exBind_ok {α β : Type} {x : Except PyErr α} {f : α → Except PyErr β} {c : β} :
    x >>= f = Except.ok c ↔ ∃ b, x = Except.ok b ∧ f b = Except.ok c := by
  cases x with
  | error e => simp [Bind.bind, Except.bind]
  | ok b => simp [Bind.bind, Except.bind]

theorem jlookup_setKey_self (k : String) (v : J) (l : List (String × J)) :
    jlookup k (setKey k v l) = some v := by
  induction l with
  | nil => simp [setKey, jlookup]
  | cons kv rest ih =>
    obtain ⟨k2, w⟩ := kv
    by_cases h : k2 = k
    · simp [setKey, h, jlookup]
    · simp [setKey, h, jlookup, ih]

theorem jlookup_setKey_other {k k2 : String} (h : k2 ≠ k) (v : J) (l : List (String × J)) :
    jlookup k2 (setKey k v l) = jlookup k2 l := by
  induction l with
  | nil => simp [setKey, jlookup, Ne.symm h]
  | cons kv rest ih =>
    obtain ⟨k3, w⟩ := kv
    by_cases h3 : k3 = k
    · subst h3
      simp [setKey, jlookup, Ne.symm h]
    · simp [setKey, h3, jlookup, ih]

theorem setKey_self {k : String} {v : J} {l : List (String × J)}
    (h : jlookup k l = some v) : setKey k v l = l := by
  induction l with
  | nil => simp [jlookup] at h
  | cons kv rest ih =>
    obtain ⟨k2, w⟩ := kv
    by_cases h2 : k2 = k
    · subst h2
      simp [jlookup] at h
      simp [setKey, h]
    · simp [jlookup, h2] at h
      simp [setKey, h2, ih h]

theorem any_key_setKey (k : String) (v : J) (l : List (String × J)) :
    (setKey k v l).any (fun kv => kv.1 == k) = true := by
  induction l with
  | nil => simp [setKey]
  | cons kv rest ih =>
    obtain ⟨k2, w⟩ := kv
    by_cases h : k2 = k
    · simp [setKey, h]
    · simp [setKey, h, ih]

theorem any_key_of_lookup {k : String} {l : List (String × J)} {v : J}
    (h : jlookup k l = some v) : l.any (fun kv => kv.1 == k) = true := by
  induction l with
  | nil => simp [jlookup] at h
  | cons kv rest ih =>
    obtain ⟨k2, w⟩ := kv
    by_cases h2 : k2 = k
    · simp [h2]
    · simp [jlookup, h2] at h
      simp [ih h]

theorem isStrEq_iff {v : J} {s : String} : isStrEq v s = true ↔ v = J.js s := by
  cases v <;> simp [isStrEq]

theorem jmem_iff {s : String} {l : List J} : jmem s l = true ↔ J.js s ∈ l := by
  simp [jmem, List.any_eq_true, isStrEq_iff]

theorem jmem_false_iff {s : String} {l : List J} : jmem s l = false ↔ J.js s ∉ l := by
  rw [← Bool.not_eq_true, not_iff_not, jmem_iff]

/-! ## C4 — atomicity on failure -/

/-- C4: whenever a `register_hooks` run fails (missing file, unparseable JSON,
or an exception while processing the document), the settings file is left
exactly as it was; no partial document is written. -/
theorem no_write_on_failure (fs : FileState) (h : (runRegisterOnFile fs).2.1 = false) :
    (runRegisterOnFile fs).1 = fs := by
  cases fs with
  | absent => rfl
  | invalid => rfl
  | content d =>
    cases hr : registerBody d with
    | error e => simp [runRegisterOnFile, hr]
    | ok p => simp [runRegisterOnFile, hr] at h

/-- Witness for `no_write_on_failure` at the missing-file state. -/
theorem no_write_on_failure_witness :
    (runRegisterOnFile FileState.absent).2.1 = false ∧
    (runRegisterOnFile FileState.absent).1 = FileState.absent :=
  ⟨rfl, no_write_on_failure FileState.absent rfl⟩

/-! ## C5 — exit-status contract -/

/-- C5 counterexample: `bareStringDoc` is read and parsed successfully (it is
a `FileState.content`), yet the wrapper exits 1 — the failure arose while
processing the parsed document, refuting "exits 1 exactly when the settings
document cannot be read or parsed". -/
theorem exit_one_processing_cex :
    mainExitCode (FileState.content bareStringDoc) = 1 := rfl

/-- C5 amended: the wrapper exits 0 on success, including when nothing is
added, and exits 1 precisely when the document is missing, unparseable, or
processing the parsed document raises. -/
theorem exit_code_iff (fs : FileState) :
    mainExitCode fs = 1 ↔
      (fs = FileState.absent ∨ fs = FileState.invalid ∨
        ∃ d e, fs = FileState.content d ∧ registerBody d = Except.error e) := by
  cases fs with
  | absent => simp [mainExitCode, runRegisterOnFile]
  | invalid => simp [mainExitCode, runRegisterOnFile]
  | content d =>
    cases hr : registerBody d with
    | error e =>
      simp only [mainExitCode, runRegisterOnFile, hr]
      constructor
      · intro _
        exact Or.inr (Or.inr ⟨d, e, rfl, hr⟩)
      · intro _
        rfl
    | ok p =>
      obtain ⟨d2, a⟩ := p
      simp only [mainExitCode, runRegisterOnFile, hr]
      constructor
      · intro hh
        simp at hh
      · rintro (hh | hh | ⟨d3, e3, hh, hr3⟩)
        · exact absurd hh (by simp)
        · exact absurd hh (by simp)
        · cases hh
          rw [hr3] at hr
          cases hr

/-! ## C3 — malformed-entry handling (counterexample) -/

/-- C3 counterexample: a document whose `PostToolUse` list holds a bare string
followed by a valid entry.  The merge does not skip the bad entry: the whole
run aborts with the `AttributeError` raised in the scan loop, the valid entry
is never registered, and the file is untouched. -/
theorem malformed_entry_aborts_cex :
    registerBody bareStringDoc = Except.error PyErr.attributeError ∧
    runRegisterOnFile (FileState.content bareStringDoc) =
      (FileState.content bareStringDoc, false, []) :=
  ⟨rfl, rfl⟩

/-! ## C2 — post-merge registration invariant (counterexample) -/

/-- C2 counterexample: in `memElsewhereDoc` the memory hook command is already
present under `UserPromptSubmit`, so the global `existing_commands` scan makes
the merge skip it.  The run succeeds, there is exactly one
`'Write|Edit|MultiEdit'` group afterwards, but it contains zero (not exactly
one) bindings with the memory hook command. -/
theorem unique_binding_cex :
    (registerBody memElsewhereDoc).map
      (fun p => (countGroups "Write|Edit|MultiEdit" ((catOf p.1 "PostToolUse").getD .null),
        totalCmd "Write|Edit|MultiEdit" memCmd ((catOf p.1 "PostToolUse").getD .null))) =
      Except.ok (1, 0) := rfl

/-! ## C9 — hook silent-failure policy (counterexample) -/

/-- C9 counterexample: pending-issues-check's `main` has no top-level handler;
on a queue holding the malformed entry `{}` the `KeyError` from
`issue['severity']` escapes and the interpreter exits with status 1. -/
theorem pending_hook_crash_cex :
    pendingExitCode (some (Except.ok (J.jarr [J.jobj []]))) = 1 := rfl

/-! ## C7 — category creation -/

/-- C7: on the empty document `{}` (both event categories absent) the merge
initializes the categories on demand; in particular the single desired
`UserPromptSubmit` binding produces exactly one new `'.*'` MatcherGroup whose
binding list is exactly the single entry `{command, timeout}`, with exactly
one applied-list entry recorded for it (and likewise the catch-all
`PostToolUse` group). -/
theorem category_creation :
    registerBody (J.jobj []) = Except.ok (J.jobj [("hooks", J.jobj [
        ("PostToolUse", J.jarr [writeGroupFull, catchGroup]),
        ("UserPromptSubmit", J.jarr [pendGroup])])],
      [memDesc, ghDesc, ghCatchDesc, pendDesc]) ∧
    catOf (J.jobj []) "UserPromptSubmit" = none ∧
    countGroups ".*" (J.jarr [pendGroup]) = 1 ∧
    cmdCount pendCmd pendGroup = 1 ∧
    [memDesc, ghDesc, ghCatchDesc, pendDesc].count pendDesc = 1 := by
  refine ⟨rfl, rfl, rfl, rfl, by decide⟩

/-! ## Inversion lemmas for the primitive operations -/

theorem pyDotGet_ok {v : J} {k : String} {d r : J} (h : pyDotGet v k d = Except.ok r) :
    ∃ kvs, v = J.jobj kvs ∧ r = (jlookup k kvs).getD d := by
  cases v <;> simp [pyDotGet] at h
  exact ⟨_, rfl, h.symm⟩

theorem pyGetItem_ok {v : J} {k : String} {r : J} (h : pyGetItem v k = Except.ok r) :
    ∃ kvs, v = J.jobj kvs ∧ jlookup k kvs = some r := by
  cases v <;> simp [pyGetItem] at h
  rename_i kvs
  cases hl : jlookup k kvs with
  | none => rw [hl] at h; cases h
  | some w => rw [hl] at h; cases h; exact ⟨kvs, rfl, hl⟩

theorem pyAppend_ok {v x r : J} (h : pyAppend v x = Except.ok r) :
    ∃ xs, v = J.jarr xs ∧ r = J.jarr (xs ++ [x]) := by
  cases v <;> simp [pyAppend] at h
  exact ⟨_, rfl, h.symm⟩

theorem pySetItem_ok {v : J} {k : String} {x r : J} (h : pySetItem v k x = Except.ok r) :
    ∃ kvs, v = J.jobj kvs ∧ r = J.jobj (setKey k x kvs) := by
  cases v <;> simp [pySetItem] at h
  exact ⟨_, rfl, h.symm⟩

/-! ## C10 — queue-deduplication invariant -/

theorem anyDupIn_false {ctx : J} {l : List J} (h : anyDupIn ctx l = Except.ok false) :
    ∀ e ∈ l, dupKeyB e ctx = false := by
  induction l with
  | nil => simp
  | cons e rest ih =>
    rw [anyDupIn] at h
    rcases exBind_ok.mp h with ⟨f, hf, h⟩
    rcases exBind_ok.mp h with ⟨cf, hcf, h⟩
    obtain ⟨ekvs, he, hfv⟩ := pyDotGet_ok hf
    obtain ⟨ckvs, hc, hcfv⟩ := pyGetItem_ok hcf
    have hgf : (jGet e "file").getD J.null = f := by
      rw [he]; simp [jGet, hfv]
    have hgcf : (jGet ctx "file").getD J.null = cf := by
      rw [hc]; simp [jGet, hcfv]
    by_cases hjf : jeq f cf = true
    · rw [if_pos hjf] at h
      rcases exBind_ok.mp h with ⟨c, hcc, h⟩
      rcases exBind_ok.mp h with ⟨cc, hccc, h⟩
      obtain ⟨ekvs2, he2, hcv⟩ := pyDotGet_ok hcc
      obtain ⟨ckvs2, hc2, hccv⟩ := pyGetItem_ok hccc
      by_cases hjc : jeq c cc = true
      · rw [if_pos hjc] at h
        cases h
      · rw [if_neg hjc] at h
        intro x hx
        rcases List.mem_cons.mp hx with hx | hx
        · subst hx
          have hgc : (jGet x "category").getD J.null = c := by
            rw [he2]; simp [jGet, hcv]
          have hgcc : (jGet ctx "category").getD J.null = cc := by
            rw [hc2]; simp [jGet, hccv]
          simp [dupKeyB, hgc, hgcc, Bool.eq_false_iff.mpr hjc]
        · exact ih h x hx
    · rw [if_neg hjf] at h
      intro x hx
      rcases List.mem_cons.mp hx with hx | hx
      · subst hx
        simp [dupKeyB, hgf, hgcf, Bool.eq_false_iff.mpr hjf]
      · exact ih h x hx

/-- C10: whenever `queue_issue` saves a new queue (`some l'`), the appended
error context's `(file, category)` key matches no entry already in the loaded
queue, the new queue is exactly the old one plus the context, and
pairwise-distinctness of `(file, category)` keys is preserved. -/
theorem queue_dedup (cfg pend : Option (Except PyErr J)) (ctx : J) (l' l : List J)
    (hrun : queueIssue cfg pend ctx = Except.ok (some l'))
    (hload : loadPendingGh pend = Except.ok (J.jarr l)) :
    (∀ e ∈ l, dupKeyB e ctx = false) ∧
    l' = l ++ [ctx] ∧
    (l.Pairwise (fun a b => dupKeyB a b = false) →
      l'.Pairwise (fun a b => dupKeyB a b = false)) := by
  rw [queueIssue] at hrun
  rcases exBind_ok.mp hrun with ⟨config, hc, hrun⟩
  rcases exBind_ok.mp hrun with ⟨proceed, hp, hrun⟩
  by_cases hpr : proceed = true
  · subst hpr
    rw [if_neg (by simp)] at hrun
    rcases exBind_ok.mp hrun with ⟨det, hdet, hrun⟩
    rcases exBind_ok.mp hrun with ⟨st, hst, hrun⟩
    rcases exBind_ok.mp hrun with ⟨thr, hthr, hrun⟩
    rcases exBind_ok.mp hrun with ⟨sevv, hsev, hrun⟩
    rcases exBind_ok.mp hrun with ⟨ei, hei, hrun⟩
    rcases exBind_ok.mp hrun with ⟨ti, hti, hrun⟩
    by_cases hlt : ei < ti
    · rw [if_pos hlt] at hrun
      cases hrun
    · rw [if_neg hlt] at hrun
      rcases exBind_ok.mp hrun with ⟨pq, hpq, hrun⟩
      rw [hload] at hpq
      cases hpq
      rcases exBind_ok.mp hrun with ⟨es, hes, hrun⟩
      have hesl : es = l := by
        simpa [pyIter] using hes.symm
      subst hesl
      rcases exBind_ok.mp hrun with ⟨dup, hdup, hrun⟩
      by_cases hdv : dup = true
      · subst hdv
        rw [if_pos rfl] at hrun
        cases hrun
      · replace hdv := Bool.eq_false_iff.mpr hdv
        subst hdv
        rw [if_neg (by simp)] at hrun
        rcases exBind_ok.mp hrun with ⟨pq2, hap, hrun⟩
        obtain ⟨xs, hxs, hpq2⟩ := pyAppend_ok hap
        cases hxs
        subst hpq2
        simp only [Pure.pure, Except.pure, Except.ok.injEq, Option.some.injEq] at hrun
        subst hrun
        refine ⟨anyDupIn_false hdup, rfl, fun hpw => ?_⟩
        rw [List.pairwise_append]
        exact ⟨hpw, List.pairwise_singleton _ _,
          fun a ha b hb => by
            rcases List.mem_singleton.mp hb with rfl
            exact anyDupIn_false hdup a ha⟩
  · replace hpr := Bool.eq_false_iff.mpr hpr
    subst hpr
    rw [if_pos (by simp)] at hrun
    cases hrun

/-- Witness for `queue_dedup`: enabled config, missing queue file, a concrete
high-severity context. -/
theorem queue_dedup_witness :
    (∀ e ∈ ([] : List J), dupKeyB e sampleCtx = false) ∧
    [sampleCtx] = [] ++ [sampleCtx] ∧
    (List.Pairwise (fun a b => dupKeyB a b = false) ([] : List J) →
      List.Pairwise (fun a b => dupKeyB a b = false) [sampleCtx]) :=
  queue_dedup (some (Except.ok cfgEnabled)) none sampleCtx [sampleCtx] [] rfl rfl

/-! ## C9 — silent-failure policy of the hook mains -/

theorem mapM_ok_of_ok {α β : Type} {f : α → Except PyErr β} :
    ∀ {l : List α}, (∀ a ∈ l, ∃ b, f a = Except.ok b) →
      ∃ out, l.mapM f = Except.ok out := by
  intro l
  induction l with
  | nil => exact fun _ => ⟨[], by rw [List.mapM_nil]; rfl⟩
  | cons a rest ih =>
    intro h
    obtain ⟨b, hb⟩ := h a (by simp)
    obtain ⟨out, hout⟩ := ih (fun x hx => h x (by simp [hx]))
    refine ⟨b :: out, ?_⟩
    rw [List.mapM_cons, hb, hout]
    rfl

theorem formatIssue_wf {i : J} (h : wfIssue i = true) : ∃ s, formatIssue i = Except.ok s := by
  cases i <;> simp [wfIssue, Bool.and_eq_true] at h
  case jobj kvs =>
  obtain ⟨⟨⟨⟨h1, h2⟩, h3⟩, h4⟩, h5⟩ := h
  cases hsev : jlookup "severity" kvs with
  | none => rw [hsev] at h1; simp at h1
  | some v =>
  rw [hsev] at h1
  cases hcat : jlookup "category" kvs with
  | none => rw [hcat] at h2; simp at h2
  | some cv =>
  rw [hcat] at h2
  cases cv <;> simp at h2
  rename_i cs
  obtain ⟨fv, hfile⟩ := Option.isSome_iff_exists.mp h3
  obtain ⟨dv, hdet⟩ := Option.isSome_iff_exists.mp h4
  cases hem : jlookup "error_message" kvs with
  | none => rw [hem] at h5; simp at h5
  | some ev =>
  rw [hem] at h5
  have hemoji : ∃ emo, emojiFor v = Except.ok emo := by
    cases v
    case jarr => simp at h1
    case jobj => simp at h1
    all_goals exact ⟨_, rfl⟩
  obtain ⟨emo, hemoji⟩ := hemoji
  have hslice : ∃ cut, pySlice ev 200 = Except.ok cut := by
    cases ev <;> simp at h5 <;> exact ⟨_, rfl⟩
  obtain ⟨cut, hslice⟩ := hslice
  refine ⟨"\n" ++ emo ++ " **" ++ pyTitle (cs.replace "-" " ") ++ "** in `" ++ pyStr fv ++
    "`\n- Severity: " ++ pyStr v ++ "\n- Detected: " ++ pyStr dv ++
    "\n- Error: " ++ pyStr cut ++ "...\n", ?_⟩
  simp only [formatIssue, pyGetItem, hsev, hcat, hfile, hdet, hem, hemoji, hslice,
    Bind.bind, Except.bind]
  rfl

theorem pendingBody_ok (issues : List J) (h : ∀ i ∈ issues, wfIssue i = true) :
    pendingBody (some (Except.ok (J.jarr issues))) = Except.ok () := by
  cases issues with
  | nil => rfl
  | cons a rest =>
    obtain ⟨out, hout⟩ := mapM_ok_of_ok (fun i hi => formatIssue_wf (h i hi))
    simp only [pendingBody, loadPendingRelaxed, pyTruthy, pyLen, pyIter, List.isEmpty_cons,
      Bool.not_false, Bool.not_true, if_false, Bind.bind, Except.bind, hout]
    rfl

/-- C9 amended: the two PostToolUse hooks exit 0 on every input thanks to
their catch-all handlers; pending-issues-check, whose `main` has no handler,
exits 0 when the queue file is missing, unreadable, or holds well-formed
entries — but (see the counterexample) not on a malformed queue entry. -/
theorem hook_exit_policy :
    (∀ w : GhWorld, githubExitCode w = 0) ∧
    (∀ w : MemWorld, memoryExitCode w = 0) ∧
    pendingExitCode none = 0 ∧
    (∀ e, pendingExitCode (some (Except.error e)) = 0) ∧
    (∀ issues : List J, (∀ i ∈ issues, wfIssue i = true) →
      pendingExitCode (some (Except.ok (J.jarr issues))) = 0) := by
  refine ⟨?_, ?_, rfl, fun e => rfl, ?_⟩
  · intro w
    rw [githubExitCode]
    cases githubBody w <;> rfl
  · intro w
    rw [memoryExitCode]
    cases memoryBody w <;> rfl
  · intro issues h
    simp [pendingExitCode, pendingBody_ok issues h]

/-- Witness for `hook_exit_policy`: a concrete well-formed queue entry, plus
instances of the universally quantified parts. -/
theorem hook_exit_policy_witness :
    (∀ i ∈ [sampleIssue], wfIssue i = true) ∧
    pendingExitCode (some (Except.ok (J.jarr [sampleIssue]))) = 0 ∧
    githubExitCode ⟨Except.error PyErr.typeError, none, none, "T"⟩ = 0 := by
  have hwf : ∀ i ∈ [sampleIssue], wfIssue i = true := by
    intro i hi
    rw [List.mem_singleton] at hi
    subst hi
    rfl
  exact ⟨hwf, hook_exit_policy.2.2.2.2 [sampleIssue] hwf, hook_exit_policy.1 _⟩

/-! ## mapM helper lemmas -/

theorem mapM_cons_ok {α β : Type} {f : α → Except PyErr β} {x : α} {l : List α} {out : List β}
    (h : (x :: l).mapM f = Except.ok out) :
    ∃ b bs, f x = Except.ok b ∧ l.mapM f = Except.ok bs ∧ out = b :: bs := by
  rw [List.mapM_cons] at h
  rcases exBind_ok.mp h with ⟨b, hb, h⟩
  rcases exBind_ok.mp h with ⟨bs, hbs, h⟩
  simp only [Pure.pure, Except.pure, Except.ok.injEq] at h
  exact ⟨b, bs, hb, hbs, h.symm⟩

theorem mapM_append_ok {α β : Type} {f : α → Except PyErr β} {l1 l2 : List α} {o1 o2 : List β}
    (h1 : l1.mapM f = Except.ok o1) (h2 : l2.mapM f = Except.ok o2) :
    (l1 ++ l2).mapM f = Except.ok (o1 ++ o2) := by
  induction l1 generalizing o1 with
  | nil =>
    rw [List.mapM_nil] at h1
    simp only [Pure.pure, Except.pure, Except.ok.injEq] at h1
    subst h1
    simpa using h2
  | cons x rest ih =>
    obtain ⟨b, bs, hb, hbs, rfl⟩ := mapM_cons_ok h1
    rw [List.cons_append, List.mapM_cons, hb]
    simp only [Bind.bind, Except.bind]
    rw [ih hbs]
    rfl

theorem mapM_error_of_mem {α β : Type} {f : α → Except PyErr β} {l : List α} {x : α}
    {e0 : PyErr} (hx : x ∈ l) (hfx : f x = Except.error e0) :
    ∃ e, l.mapM f = Except.error e := by
  induction l with
  | nil => cases hx
  | cons a rest ih =>
    rcases List.mem_cons.mp hx with rfl | hx2
    · exact ⟨e0, by rw [List.mapM_cons, hfx]; rfl⟩
    · cases hfa : f a with
      | error e => exact ⟨e, by rw [List.mapM_cons, hfa]; rfl⟩
      | ok b =>
        obtain ⟨e, he⟩ := ih hx2
        refine ⟨e, ?_⟩
        rw [List.mapM_cons, hfa]
        simp only [Bind.bind, Except.bind]
        rw [he]

/-! ## hookCmds / collectCmds lemmas -/

theorem collectCmds_arr (es : List J) :
    collectCmds (J.jarr es) = (es.mapM hookCmds) >>= fun ls => pure ls.flatten := rfl

theorem hookCmds_js (s : String) : hookCmds (J.js s) = Except.error PyErr.attributeError := rfl

theorem collectCmds_bare {es : List J} {s : String} (hmem : J.js s ∈ es) :
    ∃ e, collectCmds (J.jarr es) = Except.error e := by
  obtain ⟨e, he⟩ := mapM_error_of_mem hmem (hookCmds_js s)
  refine ⟨e, ?_⟩
  rw [collectCmds_arr, he]
  rfl

theorem hookCmds_setKey_append {e e2 hs hs2 : J} {ce : List J} {cmd : String} {t : Int}
    (hgi : pyGetItem e "hooks" = Except.ok hs)
    (hap : pyAppend hs (mkHook cmd t) = Except.ok hs2)
    (hsi : pySetItem e "hooks" hs2 = Except.ok e2)
    (hc : hookCmds e = Except.ok ce) :
    hookCmds e2 = Except.ok (ce ++ [J.js cmd]) := by
  obtain ⟨ekvs, rfl, hlk⟩ := pyGetItem_ok hgi
  obtain ⟨l, rfl, rfl⟩ := pyAppend_ok hap
  obtain ⟨ekvs2, he2, rfl⟩ := pySetItem_ok hsi
  cases he2
  simp only [hookCmds, pyDotGet, hlk, Option.getD, pyIter, Bind.bind, Except.bind] at hc
  have hsingle : ([mkHook cmd t].mapM fun h => pyDotGet h "command" (J.js "")) =
      Except.ok [J.js cmd] := rfl
  simp only [hookCmds, pyDotGet, jlookup_setKey_self, Option.getD, pyIter,
    Bind.bind, Except.bind]
  exact mapM_append_ok hc hsingle

/-! ## C3 — amended theorem: a bare-string entry aborts the run -/

/-- C3 amended: whenever the (normalized) document's `PostToolUse` list holds
a bare string entry, the whole `register_hooks` run raises and fails — no
entry is skipped-and-continued. -/
theorem malformed_entry_aborts (d s h ptu : J) (es : List J) (str : String)
    (h1 : ensureCats d = Except.ok s)
    (h2 : pyGetItem s "hooks" = Except.ok h)
    (h3 : pyDotGet h "PostToolUse" (J.jarr []) = Except.ok ptu)
    (h4 : ptu = J.jarr es)
    (h5 : J.js str ∈ es) :
    ∃ e, registerBody d = Except.error e := by
  subst h4
  obtain ⟨e, he⟩ := collectCmds_bare h5
  refine ⟨e, ?_⟩
  simp [registerBody, scanCommands, h1, h2, h3, he, Bind.bind, Except.bind]

/-- Witness for `malformed_entry_aborts` at `bareStringDoc`. -/
theorem malformed_entry_aborts_witness :
    ∃ e, registerBody bareStringDoc = Except.error e :=
  malformed_entry_aborts bareStringDoc bareStringDoc _ _
    [J.js "bare", J.jobj [("matcher", J.js "Write|Edit|MultiEdit"), ("hooks", J.jarr [])]]
    "bare" rfl rfl rfl rfl (by simp)

/-! ## Unpacking a successful register run -/

theorem registerBody_unpack {d d' : J} {a : List String}
    (h : registerBody d = Except.ok (d', a)) :
    ∃ (skvs hkvs : List (String × J)) (ex : List J) (ptu p1 p2 ups u1 : J)
      (a1 a2 a3 : List String),
      ensureCats d = Except.ok (J.jobj skvs) ∧
      scanCommands (J.jobj skvs) = Except.ok ex ∧
      jlookup "hooks" skvs = some (J.jobj hkvs) ∧
      jlookup "PostToolUse" hkvs = some ptu ∧
      block1 ex ptu = Except.ok (p1, a1) ∧
      block2 ex p1 = Except.ok (p2, a2) ∧
      jlookup "UserPromptSubmit" hkvs = some ups ∧
      block3 ex ups = Except.ok (u1, a3) ∧
      a = a1 ++ a2 ++ a3 ∧
      d' = J.jobj (setKey "hooks"
        (J.jobj (setKey "UserPromptSubmit" u1 (setKey "PostToolUse" p2 hkvs))) skvs) := by
  rw [registerBody] at h
  rcases exBind_ok.mp h with ⟨s, hens, h⟩
  rcases exBind_ok.mp h with ⟨ex, hscan, h⟩
  rcases exBind_ok.mp h with ⟨hv, hgeth, h⟩
  rcases exBind_ok.mp h with ⟨ptu, hgptu, h⟩
  rcases exBind_ok.mp h with ⟨pa1, hb1, h⟩
  obtain ⟨p1, a1⟩ := pa1
  rcases exBind_ok.mp h with ⟨pa2, hb2, h⟩
  obtain ⟨p2, a2⟩ := pa2
  rcases exBind_ok.mp h with ⟨ups, hgups, h⟩
  rcases exBind_ok.mp h with ⟨ua3, hb3, h⟩
  obtain ⟨u1, a3⟩ := ua3
  rcases exBind_ok.mp h with ⟨h2v, hset1, h⟩
  rcases exBind_ok.mp h with ⟨h3v, hset2, h⟩
  rcases exBind_ok.mp h with ⟨s2v, hset3, h⟩
  simp only [Pure.pure, Except.pure, Except.ok.injEq, Prod.mk.injEq] at h
  obtain ⟨hd', ha⟩ := h
  obtain ⟨hkvs, hhv, hh2⟩ := pySetItem_ok hset1
  subst hhv
  obtain ⟨skvs, hsv, hlkh⟩ := pyGetItem_ok hgeth
  subst hsv
  obtain ⟨hkvs2, hco, hh3⟩ := pySetItem_ok hset2
  rw [hh2] at hco
  cases hco
  obtain ⟨skvs2, hco2, hs2⟩ := pySetItem_ok hset3
  cases hco2
  obtain ⟨hkvs3, hpe, hlkp⟩ := pyGetItem_ok hgptu
  cases hpe
  obtain ⟨hkvs4, hpe2, hlku⟩ := pyGetItem_ok hgups
  cases hpe2
  exact ⟨skvs, hkvs, ex, ptu, p1, p2, ups, u1, a1, a2, a3,
    hens, hscan, hlkh, hlkp, hb1, hb2, hlku, hb3, ha.symm,
    by rw [← hd', hs2, hh3]⟩

/-! ## scanCommands and ensureCats lemmas -/

theorem scanCommands_unpack {s : J} {ex : List J} (h : scanCommands s = Except.ok ex) :
    ∃ (hkvs : List (String × J)) (cp cu : List J),
      pyGetItem s "hooks" = Except.ok (J.jobj hkvs) ∧
      collectCmds ((jlookup "PostToolUse" hkvs).getD (J.jarr [])) = Except.ok cp ∧
      collectCmds ((jlookup "UserPromptSubmit" hkvs).getD (J.jarr [])) = Except.ok cu ∧
      ex = cp ++ cu := by
  rw [scanCommands] at h
  rcases exBind_ok.mp h with ⟨hv, hgeth, h⟩
  rcases exBind_ok.mp h with ⟨p, hgp, h⟩
  rcases exBind_ok.mp h with ⟨cp, hcp, h⟩
  rcases exBind_ok.mp h with ⟨u, hgu, h⟩
  rcases exBind_ok.mp h with ⟨cu, hcu, h⟩
  have hex : ex = cp ++ cu := by
    simp only [Pure.pure, Except.pure, Except.ok.injEq] at h
    exact h.symm
  obtain ⟨hkvs, hhv, hpv⟩ := pyDotGet_ok hgp
  subst hhv
  obtain ⟨hkvs2, heq, huv⟩ := pyDotGet_ok hgu
  cases heq
  rw [hpv] at hcp
  rw [huv] at hcu
  exact ⟨hkvs, cp, cu, hgeth, hcp, hcu, hex⟩

theorem scanCommands_eq {skvs hkvs : List (String × J)}
    (hlkh : jlookup "hooks" skvs = some (J.jobj hkvs)) {cp cu : List J}
    (hc1 : collectCmds ((jlookup "PostToolUse" hkvs).getD (J.jarr [])) = Except.ok cp)
    (hc2 : collectCmds ((jlookup "UserPromptSubmit" hkvs).getD (J.jarr [])) = Except.ok cu) :
    scanCommands (J.jobj skvs) = Except.ok (cp ++ cu) := by
  simp [scanCommands, pyGetItem, hlkh, pyDotGet, hc1, hc2, Bind.bind, Except.bind,
    Pure.pure, Except.pure]

theorem ensureCats_fixpoint {skvs hkvs : List (String × J)}
    (hlkh : jlookup "hooks" skvs = some (J.jobj hkvs))
    (hp : (jlookup "PostToolUse" hkvs).isSome)
    (hu : (jlookup "UserPromptSubmit" hkvs).isSome) :
    ensureCats (J.jobj skvs) = Except.ok (J.jobj skvs) := by
  obtain ⟨pv, hpv⟩ := Option.isSome_iff_exists.mp hp
  obtain ⟨uv, huv⟩ := Option.isSome_iff_exists.mp hu
  simp [ensureCats, ensureHooksKey, ensureCatKey, pyContains, pyGetItem, hlkh,
    any_key_of_lookup hlkh, any_key_of_lookup hpv, any_key_of_lookup huv,
    Bind.bind, Except.bind, Pure.pure, Except.pure]

/-! ## filterGithub lemmas -/

theorem filterGithub_sub {l l' : List J} (h : filterGithub l = Except.ok l') :
    ∀ v ∈ l', v ∈ l := by
  induction l generalizing l' with
  | nil =>
    simp only [filterGithub, Pure.pure, Except.pure, Except.ok.injEq] at h
    subst h
    simp
  | cons x rest ih =>
    rw [filterGithub] at h
    rcases exBind_ok.mp h with ⟨keep, hkeep, h⟩
    rcases exBind_ok.mp h with ⟨rest2, hrest, h⟩
    simp only [Pure.pure, Except.pure, Except.ok.injEq] at h
    subst h
    intro v hv
    by_cases hk : keep = true
    · rw [if_pos hk] at hv
      rcases List.mem_cons.mp hv with rfl | hv2
      · simp
      · exact List.mem_cons_of_mem _ (ih hrest v hv2)
    · rw [if_neg hk] at hv
      exact List.mem_cons_of_mem _ (ih hrest v hv)

theorem filterGithub_elemOK {l l' : List J} (h : filterGithub l = Except.ok l') :
    ∀ v ∈ l, inableB v = true := by
  induction l generalizing l' with
  | nil => simp
  | cons x rest ih =>
    rw [filterGithub] at h
    rcases exBind_ok.mp h with ⟨keep, hkeep, h⟩
    rcases exBind_ok.mp h with ⟨rest2, hrest, h⟩
    intro v hv
    rcases List.mem_cons.mp hv with rfl | hv2
    · cases v <;> simp [inableB, ghInTest] at hkeep ⊢
    · exact ih hrest v hv2

theorem filterGithub_total {l : List J} (h : ∀ v ∈ l, inableB v = true) :
    ∃ l', filterGithub l = Except.ok l' ∧
      (∀ s, J.js s ∈ l → substrB "github-issue" s = true → J.js s ∈ l') := by
  induction l with
  | nil => exact ⟨[], rfl, by simp⟩
  | cons x rest ih =>
    obtain ⟨l2, hl2, hmem⟩ := ih (fun v hv => h v (List.mem_cons_of_mem _ hv))
    have hx := h x (by simp)
    have hkeep : ∃ b, ghInTest x = Except.ok b ∧
        (∀ s, x = J.js s → b = substrB "github-issue" s) := by
      cases x with
      | null => simp [inableB] at hx
      | jb b => simp [inableB] at hx
      | jn n => simp [inableB] at hx
      | js t => exact ⟨substrB "github-issue" t, rfl, fun u hu => by cases hu; rfl⟩
      | jarr xs => exact ⟨_, rfl, fun u hu => absurd hu (by simp)⟩
      | jobj kvs => exact ⟨_, rfl, fun u hu => absurd hu (by simp)⟩
    obtain ⟨b, hb, hbs⟩ := hkeep
    refine ⟨if b then x :: l2 else l2, ?_, ?_⟩
    · rw [filterGithub]
      rw [hb]
      simp only [Bind.bind, Except.bind]
      rw [hl2]
      rfl
    · intro s hs hsub
      rcases List.mem_cons.mp hs with heq | hs2
      · rw [← heq]
        have : b = true := by rw [hbs s heq.symm]; exact hsub
        subst this
        simp
      · have := hmem s hs2 hsub
        by_cases hbv : b = true <;> simp [hbv, this]

/-! ## Collect-transformation lemmas for the three merge blocks, and C1 -/

theorem appendIfMissing_hookCmds {p : Bool} {cmd desc : String} {e : J} {r : J × List String}
    {ce : List J} (hb : appendIfMissing p cmd desc e = Except.ok r)
    (hc : hookCmds e = Except.ok ce) :
    hookCmds r.1 = Except.ok (if p then ce else ce ++ [J.js cmd]) := by
  by_cases hp : p = true
  · subst hp
    rw [appendIfMissing, if_pos rfl] at hb
    simp only [Pure.pure, Except.pure, Except.ok.injEq] at hb
    rw [← hb]
    simpa using hc
  · replace hp := Bool.eq_false_iff.mpr hp
    subst hp
    rw [appendIfMissing, if_neg (by simp)] at hb
    rcases exBind_ok.mp hb with ⟨hs, hgi, hb⟩
    rcases exBind_ok.mp hb with ⟨hs2, hap, hb⟩
    rcases exBind_ok.mp hb with ⟨e2, hsi, hb⟩
    simp only [Pure.pure, Except.pure, Except.ok.injEq] at hb
    rw [← hb]
    simpa using hookCmds_setKey_append hgi hap hsi hc

theorem loop1_js (ex : List J) (t : String) (rest : List J) :
    loop1 ex (J.js t :: rest) = Except.error PyErr.attributeError := rfl

theorem loop1_collect {ex : List J} {es es2 : List J} {a : List String} {ls : List (List J)}
    (hl : loop1 ex es = Except.ok (some (es2, a)))
    (hm : es.mapM hookCmds = Except.ok ls) :
    ∃ ls2 : List (List J), es2.mapM hookCmds = Except.ok ls2 ∧
      (∀ v ∈ ls.flatten, v ∈ ls2.flatten) ∧
      (∀ v ∈ ls2.flatten, v ∈ ls.flatten ∨ v = J.js memCmd ∨ v = J.js ghCmd) ∧
      (jmem memCmd ex = false → J.js memCmd ∈ ls2.flatten) ∧
      (jmem ghCmd ex = false → J.js ghCmd ∈ ls2.flatten) := by
  induction es generalizing es2 a ls with
  | nil =>
    rw [loop1] at hl
    simp [Pure.pure, Except.pure] at hl
  | cons e rest ih =>
    obtain ⟨ce, lrest, hce, hrest, rfl⟩ := mapM_cons_ok hm
    rw [loop1] at hl
    rcases exBind_ok.mp hl with ⟨m, hmv, hl⟩
    by_cases hpat : isStrEq m "Write|Edit|MultiEdit" = true
    · rw [if_pos hpat] at hl
      rcases exBind_ok.mp hl with ⟨p1, hap1, hl⟩
      rcases exBind_ok.mp hl with ⟨p2, hap2, hl⟩
      simp only [Pure.pure, Except.pure, Except.ok.injEq, Option.some.injEq,
        Prod.mk.injEq] at hl
      obtain ⟨hes2, -⟩ := hl
      have hc1 := appendIfMissing_hookCmds hap1 hce
      have hsimp : ∀ (b : Bool) (x y : List J), b = false →
          (if b = true then x else y) = y := by intro b x y hb; rw [hb]; simp
      have hsimpT : ∀ (b : Bool) (x y : List J), b = true →
          (if b = true then x else y) = x := by intro b x y hb; rw [hb]; simp
      cases hm1 : jmem memCmd ex with
      | false =>
        rw [hsimp _ _ _ hm1] at hc1
        have hc2 := appendIfMissing_hookCmds hap2 hc1
        cases hm2 : jmem ghCmd ex with
        | false =>
          rw [hsimp _ _ _ hm2] at hc2
          refine ⟨((ce ++ [J.js memCmd]) ++ [J.js ghCmd]) :: lrest, ?_, ?_, ?_, ?_, ?_⟩
          · rw [← hes2, List.mapM_cons, hc2]
            simp only [Bind.bind, Except.bind]
            rw [hrest]
            rfl
          · intro v hv
            simp only [List.flatten_cons, List.mem_append] at hv ⊢
            tauto
          · intro v hv
            simp only [List.flatten_cons, List.mem_append, List.mem_singleton] at hv ⊢
            tauto
          · intro hmf
            simp [List.flatten_cons, List.mem_append]
          · intro hgf
            simp [List.flatten_cons, List.mem_append]
        | true =>
          rw [hsimpT _ _ _ hm2] at hc2
          refine ⟨(ce ++ [J.js memCmd]) :: lrest, ?_, ?_, ?_, ?_, ?_⟩
          · rw [← hes2, List.mapM_cons, hc2]
            simp only [Bind.bind, Except.bind]
            rw [hrest]
            rfl
          · intro v hv
            simp only [List.flatten_cons, List.mem_append] at hv ⊢
            tauto
          · intro v hv
            simp only [List.flatten_cons, List.mem_append, List.mem_singleton] at hv ⊢
            tauto
          · intro hmf
            simp [List.flatten_cons, List.mem_append]
          · intro hgf
            cases hgf
      | true =>
        rw [hsimpT _ _ _ hm1] at hc1
        have hc2 := appendIfMissing_hookCmds hap2 hc1
        cases hm2 : jmem ghCmd ex with
        | false =>
          rw [hsimp _ _ _ hm2] at hc2
          refine ⟨(ce ++ [J.js ghCmd]) :: lrest, ?_, ?_, ?_, ?_, ?_⟩
          · rw [← hes2, List.mapM_cons, hc2]
            simp only [Bind.bind, Except.bind]
            rw [hrest]
            rfl
          · intro v hv
            simp only [List.flatten_cons, List.mem_append] at hv ⊢
            tauto
          · intro v hv
            simp only [List.flatten_cons, List.mem_append, List.mem_singleton] at hv ⊢
            tauto
          · intro hmf
            cases hmf
          · intro hgf
            simp [List.flatten_cons, List.mem_append]
        | true =>
          rw [hsimpT _ _ _ hm2] at hc2
          refine ⟨ce :: lrest, ?_, ?_, ?_, ?_, ?_⟩
          · rw [← hes2, List.mapM_cons, hc2]
            simp only [Bind.bind, Except.bind]
            rw [hrest]
            rfl
          · intro v hv
            exact hv
          · intro v hv
            exact Or.inl hv
          · intro hmf
            cases hmf
          · intro hgf
            cases hgf
    · rw [if_neg hpat] at hl
      rcases exBind_ok.mp hl with ⟨r, hr, hl⟩
      simp only [Pure.pure, Except.pure, Except.ok.injEq] at hl
      cases r with
      | none => simp at hl
      | some pr =>
        obtain ⟨l2, a2⟩ := pr
        simp only [Option.map_some', Option.some.injEq, Prod.mk.injEq] at hl
        obtain ⟨hes2, -⟩ := hl
        obtain ⟨ls2', hml2, hpres, hup, hadd1, hadd2⟩ := ih hr hrest
        refine ⟨ce :: ls2', ?_, ?_, ?_, ?_, ?_⟩
        · rw [← hes2, List.mapM_cons, hce]
          simp only [Bind.bind, Except.bind]
          rw [hml2]
          rfl
        · intro v hv
          simp only [List.flatten_cons, List.mem_append] at hv ⊢
          rcases hv with hv1 | hv2
          · exact Or.inl hv1
          · exact Or.inr (hpres v hv2)
        · intro v hv
          simp only [List.flatten_cons, List.mem_append] at hv ⊢
          rcases hv with hv1 | hv2
          · exact Or.inl (Or.inl hv1)
          · rcases hup v hv2 with hin | hcmd | hcmd
            · exact Or.inl (Or.inr hin)
            · exact Or.inr (Or.inl hcmd)
            · exact Or.inr (Or.inr hcmd)
        · intro hmf
          simp only [List.flatten_cons, List.mem_append]
          exact Or.inr (hadd1 hmf)
        · intro hgf
          simp only [List.flatten_cons, List.mem_append]
          exact Or.inr (hadd2 hgf)

theorem collectCmds_arr_ok {es : List J} {c : List J}
    (h : collectCmds (J.jarr es) = Except.ok c) :
    ∃ ls, es.mapM hookCmds = Except.ok ls ∧ c = ls.flatten := by
  rw [collectCmds_arr] at h
  rcases exBind_ok.mp h with ⟨ls, hls, h⟩
  simp only [Pure.pure, Except.pure, Except.ok.injEq] at h
  exact ⟨ls, hls, h.symm⟩

theorem collectCmds_arr_build {es : List J} {ls : List (List J)}
    (h : es.mapM hookCmds = Except.ok ls) :
    collectCmds (J.jarr es) = Except.ok ls.flatten := by
  rw [collectCmds_arr, h]
  rfl

theorem pyIter_arr_of_loop1 {ex : List J} {cat : J} {es : List J} {r : List J × List String}
    (hiter : pyIter cat = Except.ok es) (hloop : loop1 ex es = Except.ok (some r)) :
    cat = J.jarr es := by
  cases cat with
  | jarr xs =>
    simp only [pyIter, Except.ok.injEq] at hiter
    rw [hiter]
  | js t =>
    exfalso
    simp only [pyIter, Except.ok.injEq] at hiter
    cases hd : t.data with
    | nil =>
      rw [hd] at hiter
      simp only [List.map_nil] at hiter
      rw [← hiter, loop1] at hloop
      simp [Pure.pure, Except.pure] at hloop
    | cons ch cs =>
      rw [hd] at hiter
      simp only [List.map_cons] at hiter
      rw [← hiter, loop1_js] at hloop
      cases hloop
  | jobj kvs =>
    exfalso
    simp only [pyIter, Except.ok.injEq] at hiter
    cases kvs with
    | nil =>
      simp only [List.map_nil] at hiter
      rw [← hiter, loop1] at hloop
      simp [Pure.pure, Except.pure] at hloop
    | cons kv rest =>
      simp only [List.map_cons] at hiter
      rw [← hiter, loop1_js] at hloop
      cases hloop
  | null => cases hiter
  | jb b => cases hiter
  | jn n => cases hiter

theorem block1_collect {ex : List J} {cat cat2 : J} {a : List String} {c : List J}
    (hb : block1 ex cat = Except.ok (cat2, a))
    (hc : collectCmds cat = Except.ok c) :
    ∃ c2, collectCmds cat2 = Except.ok c2 ∧
      (∀ v ∈ c, v ∈ c2) ∧
      (∀ v ∈ c2, v ∈ c ∨ v = J.js memCmd ∨ v = J.js ghCmd) ∧
      (jmem memCmd ex = false → J.js memCmd ∈ c2) ∧
      (jmem ghCmd ex = false → J.js ghCmd ∈ c2) := by
  rw [block1] at hb
  by_cases hg : (jmem memCmd ex && jmem ghCmd ex) = true
  · rw [if_pos hg] at hb
    simp only [Pure.pure, Except.pure, Except.ok.injEq, Prod.mk.injEq] at hb
    obtain ⟨hcat, -⟩ := hb
    rw [Bool.and_eq_true] at hg
    obtain ⟨hg1, hg2⟩ := hg
    refine ⟨c, ?_, fun v hv => hv, fun v hv => Or.inl hv, ?_, ?_⟩
    · rw [← hcat]
      exact hc
    · intro hf
      rw [hf] at hg1
      cases hg1
    · intro hf
      rw [hf] at hg2
      cases hg2
  · rw [if_neg hg] at hb
    rcases exBind_ok.mp hb with ⟨es, hiter, hb⟩
    rcases exBind_ok.mp hb with ⟨r, hloop, hb⟩
    cases r with
    | some pr =>
      have hcat := pyIter_arr_of_loop1 hiter hloop
      subst hcat
      obtain ⟨es2, a2⟩ := pr
      simp only [Pure.pure, Except.pure, Except.ok.injEq, Prod.mk.injEq] at hb
      obtain ⟨hcat2, -⟩ := hb
      obtain ⟨ls, hml, hcf⟩ := collectCmds_arr_ok hc
      obtain ⟨ls2, hml2, hpres, hup, hadd1, hadd2⟩ := loop1_collect hloop hml
      refine ⟨ls2.flatten, ?_, ?_, ?_, hadd1, hadd2⟩
      · rw [← hcat2]
        exact collectCmds_arr_build hml2
      · intro v hv
        rw [hcf] at hv
        exact hpres v hv
      · intro v hv
        rcases hup v hv with hin | hcmd | hcmd
        · exact Or.inl (by rw [hcf]; exact hin)
        · exact Or.inr (Or.inl hcmd)
        · exact Or.inr (Or.inr hcmd)
    | none =>
      cases hm1 : jmem memCmd ex with
      | true =>
        cases hm2 : jmem ghCmd ex with
        | true =>
          exfalso
          rw [hm1, hm2] at hg
          exact hg rfl
        | false =>
          rw [hm1, hm2] at hb
          simp only [List.append_nil, List.nil_append, eq_self_iff_true, if_true, if_false,
            Bool.false_eq_true, Bool.true_eq_false, ite_true, ite_false,
            List.isEmpty_cons] at hb
          rcases exBind_ok.mp hb with ⟨cat3, happ, hb⟩
          obtain ⟨xs, hxs, hcat3⟩ := pyAppend_ok happ
          subst hxs
          simp only [pyIter, Except.ok.injEq] at hiter
          rw [hiter] at hc hcat3
          subst hcat3
          simp only [Pure.pure, Except.pure, Except.ok.injEq, Prod.mk.injEq] at hb
          obtain ⟨hcat2, -⟩ := hb
          obtain ⟨ls, hml, hcf⟩ := collectCmds_arr_ok hc
          have hgrp : hookCmds (J.jobj [("matcher", J.js "Write|Edit|MultiEdit"),
              ("hooks", J.jarr [mkHook ghCmd 5])]) = Except.ok [J.js ghCmd] := rfl
          have hml2 : (es ++ [J.jobj [("matcher", J.js "Write|Edit|MultiEdit"),
              ("hooks", J.jarr [mkHook ghCmd 5])]]).mapM hookCmds =
              Except.ok (ls ++ [[J.js ghCmd]]) :=
            mapM_append_ok hml (by rw [List.mapM_cons, hgrp, List.mapM_nil]; rfl)
          refine ⟨c ++ [J.js ghCmd], ?_, ?_, ?_, ?_, ?_⟩
          · rw [← hcat2]
            have := collectCmds_arr_build hml2
            rwa [List.flatten_append, ← hcf] at this
          · intro v hv
            exact List.mem_append_left _ hv
          · intro v hv
            rcases List.mem_append.mp hv with hv1 | hv2
            · exact Or.inl hv1
            · exact Or.inr (Or.inr (List.mem_singleton.mp hv2))
          · intro hf
            cases hf
          · intro _
            exact List.mem_append_right _ (by simp)
      | false =>
        cases hm2 : jmem ghCmd ex with
        | true =>
          rw [hm1, hm2] at hb
          simp only [List.append_nil, List.nil_append, eq_self_iff_true, if_true, if_false,
            Bool.false_eq_true, Bool.true_eq_false, ite_true, ite_false,
            List.isEmpty_cons] at hb
          rcases exBind_ok.mp hb with ⟨cat3, happ, hb⟩
          obtain ⟨xs, hxs, hcat3⟩ := pyAppend_ok happ
          subst hxs
          simp only [pyIter, Except.ok.injEq] at hiter
          rw [hiter] at hc hcat3
          subst hcat3
          simp only [Pure.pure, Except.pure, Except.ok.injEq, Prod.mk.injEq] at hb
          obtain ⟨hcat2, -⟩ := hb
          obtain ⟨ls, hml, hcf⟩ := collectCmds_arr_ok hc
          have hgrp : hookCmds (J.jobj [("matcher", J.js "Write|Edit|MultiEdit"),
              ("hooks", J.jarr [mkHook memCmd 5])]) = Except.ok [J.js memCmd] := rfl
          have hml2 : (es ++ [J.jobj [("matcher", J.js "Write|Edit|MultiEdit"),
              ("hooks", J.jarr [mkHook memCmd 5])]]).mapM hookCmds =
              Except.ok (ls ++ [[J.js memCmd]]) :=
            mapM_append_ok hml (by rw [List.mapM_cons, hgrp, List.mapM_nil]; rfl)
          refine ⟨c ++ [J.js memCmd], ?_, ?_, ?_, ?_, ?_⟩
          · rw [← hcat2]
            have := collectCmds_arr_build hml2
            rwa [List.flatten_append, ← hcf] at this
          · intro v hv
            exact List.mem_append_left _ hv
          · intro v hv
            rcases List.mem_append.mp hv with hv1 | hv2
            · exact Or.inl hv1
            · exact Or.inr (Or.inl (List.mem_singleton.mp hv2))
          · intro _
            exact List.mem_append_right _ (by simp)
          · intro hf
            cases hf
        | false =>
          rw [hm1, hm2] at hb
          simp only [List.append_nil, List.nil_append, eq_self_iff_true, if_true, if_false,
            Bool.false_eq_true, Bool.true_eq_false, ite_true, ite_false,
            List.isEmpty_cons] at hb
          rcases exBind_ok.mp hb with ⟨cat3, happ, hb⟩
          obtain ⟨xs, hxs, hcat3⟩ := pyAppend_ok happ
          subst hxs
          simp only [pyIter, Except.ok.injEq] at hiter
          rw [hiter] at hc hcat3
          subst hcat3
          simp only [Pure.pure, Except.pure, Except.ok.injEq, Prod.mk.injEq] at hb
          obtain ⟨hcat2, -⟩ := hb
          obtain ⟨ls, hml, hcf⟩ := collectCmds_arr_ok hc
          have hgrp : hookCmds (J.jobj [("matcher", J.js "Write|Edit|MultiEdit"),
              ("hooks", J.jarr [mkHook memCmd 5, mkHook ghCmd 5])]) =
              Except.ok [J.js memCmd, J.js ghCmd] := rfl
          have hml2 : (es ++ [J.jobj [("matcher", J.js "Write|Edit|MultiEdit"),
              ("hooks", J.jarr [mkHook memCmd 5, mkHook ghCmd 5])]]).mapM hookCmds =
              Except.ok (ls ++ [[J.js memCmd, J.js ghCmd]]) :=
            mapM_append_ok hml (by rw [List.mapM_cons, hgrp, List.mapM_nil]; rfl)
          refine ⟨c ++ [J.js memCmd, J.js ghCmd], ?_, ?_, ?_, ?_, ?_⟩
          · rw [← hcat2]
            have := collectCmds_arr_build hml2
            rwa [List.flatten_append, ← hcf] at this
          · intro v hv
            exact List.mem_append_left _ hv
          · intro v hv
            rcases List.mem_append.mp hv with hv1 | hv2
            · exact Or.inl hv1
            · rcases List.mem_cons.mp hv2 with hv2 | hv2
              · exact Or.inr (Or.inl hv2)
              · exact Or.inr (Or.inr (List.mem_singleton.mp hv2))
          · intro _
            exact List.mem_append_right _ (by simp)
          · intro _
            exact List.mem_append_right _ (by simp)

theorem loop2_js (t : String) (rest : List J) :
    loop2 (J.js t :: rest) = Except.error PyErr.attributeError := rfl

theorem loop3_js (t : String) (rest : List J) :
    loop3 (J.js t :: rest) = Except.error PyErr.attributeError := rfl

theorem pyIter_arr_of_loop2 {cat : J} {es : List J} {r : List J × List String}
    (hiter : pyIter cat = Except.ok es) (hloop : loop2 es = Except.ok (some r)) :
    cat = J.jarr es := by
  cases cat with
  | jarr xs =>
    simp only [pyIter, Except.ok.injEq] at hiter
    rw [hiter]
  | js t =>
    exfalso
    simp only [pyIter, Except.ok.injEq] at hiter
    cases hd : t.data with
    | nil =>
      rw [hd] at hiter
      simp only [List.map_nil] at hiter
      rw [← hiter, loop2] at hloop
      simp [Pure.pure, Except.pure] at hloop
    | cons ch cs =>
      rw [hd] at hiter
      simp only [List.map_cons] at hiter
      rw [← hiter, loop2_js] at hloop
      cases hloop
  | jobj kvs =>
    exfalso
    simp only [pyIter, Except.ok.injEq] at hiter
    cases kvs with
    | nil =>
      simp only [List.map_nil] at hiter
      rw [← hiter, loop2] at hloop
      simp [Pure.pure, Except.pure] at hloop
    | cons kv rest =>
      simp only [List.map_cons] at hiter
      rw [← hiter, loop2_js] at hloop
      cases hloop
  | null => cases hiter
  | jb b => cases hiter
  | jn n => cases hiter

theorem pyIter_arr_of_loop3 {cat : J} {es : List J} {r : List J × List String}
    (hiter : pyIter cat = Except.ok es) (hloop : loop3 es = Except.ok (some r)) :
    cat = J.jarr es := by
  cases cat with
  | jarr xs =>
    simp only [pyIter, Except.ok.injEq] at hiter
    rw [hiter]
  | js t =>
    exfalso
    simp only [pyIter, Except.ok.injEq] at hiter
    cases hd : t.data with
    | nil =>
      rw [hd] at hiter
      simp only [List.map_nil] at hiter
      rw [← hiter, loop3] at hloop
      simp [Pure.pure, Except.pure] at hloop
    | cons ch cs =>
      rw [hd] at hiter
      simp only [List.map_cons] at hiter
      rw [← hiter, loop3_js] at hloop
      cases hloop
  | jobj kvs =>
    exfalso
    simp only [pyIter, Except.ok.injEq] at hiter
    cases kvs with
    | nil =>
      simp only [List.map_nil] at hiter
      rw [← hiter, loop3] at hloop
      simp [Pure.pure, Except.pure] at hloop
    | cons kv rest =>
      simp only [List.map_cons] at hiter
      rw [← hiter, loop3_js] at hloop
      cases hloop
  | null => cases hiter
  | jb b => cases hiter
  | jn n => cases hiter

theorem loop2_collect {es es2 : List J} {a : List String} {ls : List (List J)}
    (hl : loop2 es = Except.ok (some (es2, a)))
    (hm : es.mapM hookCmds = Except.ok ls) :
    ∃ ls2, es2.mapM hookCmds = Except.ok ls2 ∧
      (∀ v ∈ ls.flatten, v ∈ ls2.flatten) ∧
      (∀ v ∈ ls2.flatten, v ∈ ls.flatten ∨ v = J.js ghCmd) := by
  induction es generalizing es2 a ls with
  | nil =>
    rw [loop2] at hl
    simp [Pure.pure, Except.pure] at hl
  | cons e rest ih =>
    obtain ⟨ce, lrest, hce, hrest, rfl⟩ := mapM_cons_ok hm
    rw [loop2] at hl
    rcases exBind_ok.mp hl with ⟨m, hmv, hl⟩
    by_cases hpat : isStrEq m ".*" = true
    · rw [if_pos hpat] at hl
      rcases exBind_ok.mp hl with ⟨hs, hhs, hl⟩
      rcases exBind_ok.mp hl with ⟨items, hitems, hl⟩
      rcases exBind_ok.mp hl with ⟨hasGh, hhg, hl⟩
      by_cases hgv : hasGh = true
      · rw [if_pos hgv] at hl
        simp only [Pure.pure, Except.pure, Except.ok.injEq, Option.some.injEq,
          Prod.mk.injEq] at hl
        obtain ⟨hes2, -⟩ := hl
        refine ⟨ce :: lrest, ?_, fun v hv => hv, fun v hv => Or.inl hv⟩
        rw [← hes2, List.mapM_cons, hce]
        simp only [Bind.bind, Except.bind]
        rw [hrest]
        rfl
      · rw [if_neg hgv] at hl
        rcases exBind_ok.mp hl with ⟨hs0, hgi, hl⟩
        rcases exBind_ok.mp hl with ⟨hs2, hap, hl⟩
        rcases exBind_ok.mp hl with ⟨e2, hsi, hl⟩
        simp only [Pure.pure, Except.pure, Except.ok.injEq, Option.some.injEq,
          Prod.mk.injEq] at hl
        obtain ⟨hes2, -⟩ := hl
        have hc2 := hookCmds_setKey_append hgi hap hsi hce
        refine ⟨(ce ++ [J.js ghCmd]) :: lrest, ?_, ?_, ?_⟩
        · rw [← hes2, List.mapM_cons, hc2]
          simp only [Bind.bind, Except.bind]
          rw [hrest]
          rfl
        · intro v hv
          simp only [List.flatten_cons, List.mem_append] at hv ⊢
          tauto
        · intro v hv
          simp only [List.flatten_cons, List.mem_append, List.mem_singleton] at hv ⊢
          tauto
    · rw [if_neg hpat] at hl
      rcases exBind_ok.mp hl with ⟨r, hr, hl⟩
      simp only [Pure.pure, Except.pure, Except.ok.injEq] at hl
      cases r with
      | none => simp at hl
      | some pr =>
        obtain ⟨l2, a2⟩ := pr
        simp only [Option.map_some', Option.some.injEq, Prod.mk.injEq] at hl
        obtain ⟨hes2, -⟩ := hl
        obtain ⟨ls2', hml2, hpres, hup⟩ := ih hr hrest
        refine ⟨ce :: ls2', ?_, ?_, ?_⟩
        · rw [← hes2, List.mapM_cons, hce]
          simp only [Bind.bind, Except.bind]
          rw [hml2]
          rfl
        · intro v hv
          simp only [List.flatten_cons, List.mem_append] at hv ⊢
          rcases hv with hv1 | hv2
          · exact Or.inl hv1
          · exact Or.inr (hpres v hv2)
        · intro v hv
          simp only [List.flatten_cons, List.mem_append] at hv ⊢
          rcases hv with hv1 | hv2
          · exact Or.inl (Or.inl hv1)
          · rcases hup v hv2 with hin | hcmd
            · exact Or.inl (Or.inr hin)
            · exact Or.inr hcmd

theorem loop3_collect {es es2 : List J} {a : List String} {ls : List (List J)}
    (hl : loop3 es = Except.ok (some (es2, a)))
    (hm : es.mapM hookCmds = Except.ok ls) :
    ∃ ls2, es2.mapM hookCmds = Except.ok ls2 ∧
      (∀ v ∈ ls.flatten, v ∈ ls2.flatten) ∧
      (∀ v ∈ ls2.flatten, v ∈ ls.flatten ∨ v = J.js pendCmd) ∧
      J.js pendCmd ∈ ls2.flatten := by
  induction es generalizing es2 a ls with
  | nil =>
    rw [loop3] at hl
    simp [Pure.pure, Except.pure] at hl
  | cons e rest ih =>
    obtain ⟨ce, lrest, hce, hrest, rfl⟩ := mapM_cons_ok hm
    rw [loop3] at hl
    rcases exBind_ok.mp hl with ⟨m, hmv, hl⟩
    by_cases hpat : isStrEq m ".*" = true
    · rw [if_pos hpat] at hl
      rcases exBind_ok.mp hl with ⟨hs, hgi, hl⟩
      rcases exBind_ok.mp hl with ⟨hs2, hap, hl⟩
      rcases exBind_ok.mp hl with ⟨e2, hsi, hl⟩
      simp only [Pure.pure, Except.pure, Except.ok.injEq, Option.some.injEq,
        Prod.mk.injEq] at hl
      obtain ⟨hes2, -⟩ := hl
      have hc2 := hookCmds_setKey_append hgi hap hsi hce
      refine ⟨(ce ++ [J.js pendCmd]) :: lrest, ?_, ?_, ?_, ?_⟩
      · rw [← hes2, List.mapM_cons, hc2]
        simp only [Bind.bind, Except.bind]
        rw [hrest]
        rfl
      · intro v hv
        simp only [List.flatten_cons, List.mem_append] at hv ⊢
        tauto
      · intro v hv
        simp only [List.flatten_cons, List.mem_append, List.mem_singleton] at hv ⊢
        tauto
      · simp [List.flatten_cons, List.mem_append]
    · rw [if_neg hpat] at hl
      rcases exBind_ok.mp hl with ⟨r, hr, hl⟩
      simp only [Pure.pure, Except.pure, Except.ok.injEq] at hl
      cases r with
      | none => simp at hl
      | some pr =>
        obtain ⟨l2, a2⟩ := pr
        simp only [Option.map_some', Option.some.injEq, Prod.mk.injEq] at hl
        obtain ⟨hes2, -⟩ := hl
        obtain ⟨ls2', hml2, hpres, hup, hmem⟩ := ih hr hrest
        refine ⟨ce :: ls2', ?_, ?_, ?_, ?_⟩
        · rw [← hes2, List.mapM_cons, hce]
          simp only [Bind.bind, Except.bind]
          rw [hml2]
          rfl
        · intro v hv
          simp only [List.flatten_cons, List.mem_append] at hv ⊢
          rcases hv with hv1 | hv2
          · exact Or.inl hv1
          · exact Or.inr (hpres v hv2)
        · intro v hv
          simp only [List.flatten_cons, List.mem_append] at hv ⊢
          rcases hv with hv1 | hv2
          · exact Or.inl (Or.inl hv1)
          · rcases hup v hv2 with hin | hcmd
            · exact Or.inl (Or.inr hin)
            · exact Or.inr hcmd
        · simp only [List.flatten_cons, List.mem_append]
          exact Or.inr hmem

theorem block2_collect {ex : List J} {cat cat2 : J} {a : List String} {c : List J}
    (hb : block2 ex cat = Except.ok (cat2, a))
    (hc : collectCmds cat = Except.ok c) :
    ∃ c2, collectCmds cat2 = Except.ok c2 ∧
      (∀ v ∈ c, v ∈ c2) ∧
      (∀ v ∈ c2, v ∈ c ∨ v = J.js ghCmd) := by
  rw [block2] at hb
  rcases exBind_ok.mp hb with ⟨filtered, hfil, hb⟩
  by_cases hgf : jmem ghCmd filtered = true
  · rw [if_pos hgf] at hb
    simp only [Pure.pure, Except.pure, Except.ok.injEq, Prod.mk.injEq] at hb
    obtain ⟨hcat, -⟩ := hb
    rw [← hcat]
    exact ⟨c, hc, fun v hv => hv, fun v hv => Or.inl hv⟩
  · rw [if_neg hgf] at hb
    rcases exBind_ok.mp hb with ⟨es, hiter, hb⟩
    rcases exBind_ok.mp hb with ⟨r, hloop, hb⟩
    cases r with
    | some pr =>
      have hcat := pyIter_arr_of_loop2 hiter hloop
      subst hcat
      obtain ⟨es2, a2⟩ := pr
      simp only [Pure.pure, Except.pure, Except.ok.injEq, Prod.mk.injEq] at hb
      obtain ⟨hcat2, -⟩ := hb
      obtain ⟨ls, hml, hcf⟩ := collectCmds_arr_ok hc
      obtain ⟨ls2, hml2, hpres, hup⟩ := loop2_collect hloop hml
      refine ⟨ls2.flatten, ?_, ?_, ?_⟩
      · rw [← hcat2]
        exact collectCmds_arr_build hml2
      · intro v hv
        rw [hcf] at hv
        exact hpres v hv
      · intro v hv
        rcases hup v hv with hin | hcmd
        · exact Or.inl (by rw [hcf]; exact hin)
        · exact Or.inr hcmd
    | none =>
      rcases exBind_ok.mp hb with ⟨cat3, happ, hb⟩
      obtain ⟨xs, hxs, hcat3⟩ := pyAppend_ok happ
      subst hxs
      simp only [pyIter, Except.ok.injEq] at hiter
      rw [hiter] at hc hcat3
      subst hcat3
      simp only [Pure.pure, Except.pure, Except.ok.injEq, Prod.mk.injEq] at hb
      obtain ⟨hcat2, -⟩ := hb
      obtain ⟨ls, hml, hcf⟩ := collectCmds_arr_ok hc
      have hgrp : hookCmds (J.jobj [("matcher", J.js ".*"),
          ("hooks", J.jarr [mkHook ghCmd 5])]) = Except.ok [J.js ghCmd] := rfl
      have hml2 : (es ++ [J.jobj [("matcher", J.js ".*"),
          ("hooks", J.jarr [mkHook ghCmd 5])]]).mapM hookCmds =
          Except.ok (ls ++ [[J.js ghCmd]]) :=
        mapM_append_ok hml (by rw [List.mapM_cons, hgrp, List.mapM_nil]; rfl)
      refine ⟨c ++ [J.js ghCmd], ?_, ?_, ?_⟩
      · rw [← hcat2]
        have := collectCmds_arr_build hml2
        rwa [List.flatten_append, ← hcf] at this
      · intro v hv
        exact List.mem_append_left _ hv
      · intro v hv
        rcases List.mem_append.mp hv with hv1 | hv2
        · exact Or.inl hv1
        · exact Or.inr (List.mem_singleton.mp hv2)

theorem block3_collect {ex : List J} {cat cat2 : J} {a : List String} {c : List J}
    (hb : block3 ex cat = Except.ok (cat2, a))
    (hc : collectCmds cat = Except.ok c) :
    ∃ c2, collectCmds cat2 = Except.ok c2 ∧
      (∀ v ∈ c, v ∈ c2) ∧
      (∀ v ∈ c2, v ∈ c ∨ v = J.js pendCmd) ∧
      (jmem pendCmd ex = false → J.js pendCmd ∈ c2) := by
  rw [block3] at hb
  by_cases hg : jmem pendCmd ex = true
  · rw [if_pos hg] at hb
    simp only [Pure.pure, Except.pure, Except.ok.injEq, Prod.mk.injEq] at hb
    obtain ⟨hcat, -⟩ := hb
    rw [← hcat]
    refine ⟨c, hc, fun v hv => hv, fun v hv => Or.inl hv, ?_⟩
    intro hf
    rw [hf] at hg
    cases hg
  · rw [if_neg hg] at hb
    rcases exBind_ok.mp hb with ⟨es, hiter, hb⟩
    rcases exBind_ok.mp hb with ⟨r, hloop, hb⟩
    cases r with
    | some pr =>
      have hcat := pyIter_arr_of_loop3 hiter hloop
      subst hcat
      obtain ⟨es2, a2⟩ := pr
      simp only [Pure.pure, Except.pure, Except.ok.injEq, Prod.mk.injEq] at hb
      obtain ⟨hcat2, -⟩ := hb
      obtain ⟨ls, hml, hcf⟩ := collectCmds_arr_ok hc
      obtain ⟨ls2, hml2, hpres, hup, hmem⟩ := loop3_collect hloop hml
      refine ⟨ls2.flatten, ?_, ?_, ?_, fun _ => hmem⟩
      · rw [← hcat2]
        exact collectCmds_arr_build hml2
      · intro v hv
        rw [hcf] at hv
        exact hpres v hv
      · intro v hv
        rcases hup v hv with hin | hcmd
        · exact Or.inl (by rw [hcf]; exact hin)
        · exact Or.inr hcmd
    | none =>
      rcases exBind_ok.mp hb with ⟨cat3, happ, hb⟩
      obtain ⟨xs, hxs, hcat3⟩ := pyAppend_ok happ
      subst hxs
      simp only [pyIter, Except.ok.injEq] at hiter
      rw [hiter] at hc hcat3
      subst hcat3
      simp only [Pure.pure, Except.pure, Except.ok.injEq, Prod.mk.injEq] at hb
      obtain ⟨hcat2, -⟩ := hb
      obtain ⟨ls, hml, hcf⟩ := collectCmds_arr_ok hc
      have hgrp : hookCmds (J.jobj [("matcher", J.js ".*"),
          ("hooks", J.jarr [mkHook pendCmd 3])]) = Except.ok [J.js pendCmd] := rfl
      have hml2 : (es ++ [J.jobj [("matcher", J.js ".*"),
          ("hooks", J.jarr [mkHook pendCmd 3])]]).mapM hookCmds =
          Except.ok (ls ++ [[J.js pendCmd]]) :=
        mapM_append_ok hml (by rw [List.mapM_cons, hgrp, List.mapM_nil]; rfl)
      refine ⟨c ++ [J.js pendCmd], ?_, ?_, ?_, ?_⟩
      · rw [← hcat2]
        have := collectCmds_arr_build hml2
        rwa [List.flatten_append, ← hcf] at this
      · intro v hv
        exact List.mem_append_left _ hv
      · intro v hv
        rcases List.mem_append.mp hv with hv1 | hv2
        · exact Or.inl hv1
        · exact Or.inr (List.mem_singleton.mp hv2)
      · intro _
        exact List.mem_append_right _ (by simp)

theorem block2_filter_ok {ex : List J} {cat : J} {r : J × List String}
    (hb : block2 ex cat = Except.ok r) : ∃ f, filterGithub ex = Except.ok f := by
  rw [block2] at hb
  rcases exBind_ok.mp hb with ⟨f, hf, -⟩
  exact ⟨f, hf⟩

theorem block1_skip {ex : List J} {cat : J} (h1 : jmem memCmd ex = true)
    (h2 : jmem ghCmd ex = true) : block1 ex cat = Except.ok (cat, []) := by
  rw [block1, if_pos (by rw [h1, h2]; rfl)]
  rfl

theorem block2_skip {ex : List J} {cat : J} {f : List J}
    (hf : filterGithub ex = Except.ok f) (h2 : jmem ghCmd f = true) :
    block2 ex cat = Except.ok (cat, []) := by
  rw [block2, hf]
  simp only [Bind.bind, Except.bind]
  rw [if_pos h2]
  rfl

theorem block3_skip {ex : List J} {cat : J} (h : jmem pendCmd ex = true) :
    block3 ex cat = Except.ok (cat, []) := by
  rw [block3, if_pos h]
  rfl

/-- C1: idempotence of the merge — a second `register_hooks` run on the
document produced by a successful first run returns the document unchanged
and reports an empty `added` list. -/
theorem merge_idempotent (d d2 : J) (a : List String)
    (hrun : registerBody d = Except.ok (d2, a)) :
    registerBody d2 = Except.ok (d2, []) := by
  obtain ⟨skvs, hkvs, ex, ptu, p1, p2, ups, u1, a1, a2, a3,
    hens, hscan, hlkh, hlkp, hb1, hb2, hlku, hb3, ha, hd2⟩ := registerBody_unpack hrun
  obtain ⟨hkvs2, cp, cu, hgeth, hcp, hcu, hexeq⟩ := scanCommands_unpack hscan
  have hhk : hkvs2 = hkvs := by
    simp only [pyGetItem, hlkh, Except.ok.injEq, J.jobj.injEq] at hgeth
    exact hgeth.symm
  rw [hhk] at hcp hcu
  rw [hlkp] at hcp
  rw [hlku] at hcu
  simp only [Option.getD] at hcp hcu
  have hcp2 : collectCmds ptu = Except.ok cp := hcp
  have hcu2 : collectCmds ups = Except.ok cu := hcu
  obtain ⟨c1', hc1', hpres1, hup1, hadd1m, hadd1g⟩ := block1_collect hb1 hcp2
  obtain ⟨c2', hc2', hpres2, hup2⟩ := block2_collect hb2 hc1'
  obtain ⟨c3', hc3', hpres3, hup3, hadd3⟩ := block3_collect hb3 hcu2
  have hmemMem : J.js memCmd ∈ c2' ++ c3' := by
    by_cases hm : jmem memCmd ex = true
    · have hin := jmem_iff.mp hm
      rw [hexeq] at hin
      rcases List.mem_append.mp hin with h | h
      · exact List.mem_append_left _ (hpres2 _ (hpres1 _ h))
      · exact List.mem_append_right _ (hpres3 _ h)
    · exact List.mem_append_left _ (hpres2 _ (hadd1m (Bool.eq_false_iff.mpr hm)))
  have hmemGh : J.js ghCmd ∈ c2' ++ c3' := by
    by_cases hm : jmem ghCmd ex = true
    · have hin := jmem_iff.mp hm
      rw [hexeq] at hin
      rcases List.mem_append.mp hin with h | h
      · exact List.mem_append_left _ (hpres2 _ (hpres1 _ h))
      · exact List.mem_append_right _ (hpres3 _ h)
    · exact List.mem_append_left _ (hpres2 _ (hadd1g (Bool.eq_false_iff.mpr hm)))
  have hmemPend : J.js pendCmd ∈ c2' ++ c3' := by
    by_cases hm : jmem pendCmd ex = true
    · have hin := jmem_iff.mp hm
      rw [hexeq] at hin
      rcases List.mem_append.mp hin with h | h
      · exact List.mem_append_left _ (hpres2 _ (hpres1 _ h))
      · exact List.mem_append_right _ (hpres3 _ h)
    · exact List.mem_append_right _ (hadd3 (Bool.eq_false_iff.mpr hm))
  obtain ⟨f1, hf1⟩ := block2_filter_ok hb2
  have helems := filterGithub_elemOK hf1
  have helems2 : ∀ v ∈ c2' ++ c3', inableB v = true := by
    intro v hv
    rcases List.mem_append.mp hv with hv | hv
    · rcases hup2 v hv with hv2 | rfl
      · rcases hup1 v hv2 with hv3 | rfl | rfl
        · exact helems v (by rw [hexeq]; exact List.mem_append_left _ hv3)
        · rfl
        · rfl
      · rfl
    · rcases hup3 v hv with hv2 | rfl
      · exact helems v (by rw [hexeq]; exact List.mem_append_right _ hv2)
      · rfl
  obtain ⟨f2, hf2, hf2mem⟩ := filterGithub_total helems2
  have hghsub : substrB "github-issue" ghCmd = true := by decide
  have hghf2 : J.js ghCmd ∈ f2 := hf2mem ghCmd hmemGh hghsub
  subst hd2
  have hKptu : jlookup "PostToolUse"
      (setKey "UserPromptSubmit" u1 (setKey "PostToolUse" p2 hkvs)) = some p2 := by
    rw [jlookup_setKey_other (by decide), jlookup_setKey_self]
  have hKups : jlookup "UserPromptSubmit"
      (setKey "UserPromptSubmit" u1 (setKey "PostToolUse" p2 hkvs)) = some u1 :=
    jlookup_setKey_self _ _ _
  have hSh : jlookup "hooks" (setKey "hooks"
      (J.jobj (setKey "UserPromptSubmit" u1 (setKey "PostToolUse" p2 hkvs))) skvs) =
      some (J.jobj (setKey "UserPromptSubmit" u1 (setKey "PostToolUse" p2 hkvs))) :=
    jlookup_setKey_self _ _ _
  have hens2 := ensureCats_fixpoint hSh (by rw [hKptu]; rfl) (by rw [hKups]; rfl)
  have hscan2 := @scanCommands_eq _ _ hSh c2' c3'
    (by rw [hKptu]; exact hc2') (by rw [hKups]; exact hc3')
  have hjm : jmem memCmd (c2' ++ c3') = true := jmem_iff.mpr hmemMem
  have hjg : jmem ghCmd (c2' ++ c3') = true := jmem_iff.mpr hmemGh
  have hjp : jmem pendCmd (c2' ++ c3') = true := jmem_iff.mpr hmemPend
  have hjgf : jmem ghCmd f2 = true := jmem_iff.mpr hghf2
  have hb1' : block1 (c2' ++ c3') p2 = Except.ok (p2, []) := block1_skip hjm hjg
  have hb2' : block2 (c2' ++ c3') p2 = Except.ok (p2, []) := block2_skip hf2 hjgf
  have hb3' : block3 (c2' ++ c3') u1 = Except.ok (u1, []) := block3_skip hjp
  rw [registerBody, hens2]
  simp only [Bind.bind, Except.bind]
  rw [hscan2]
  simp only [pyGetItem, hSh]
  rw [hKptu]
  simp only [Bind.bind, Except.bind]
  rw [hb1']
  simp only [Bind.bind, Except.bind]
  rw [hb2']
  simp only [Bind.bind, Except.bind]
  rw [hKups]
  simp only [Bind.bind, Except.bind]
  rw [hb3']
  simp only [pySetItem, setKey_self hKptu, setKey_self hKups, setKey_self hSh,
    Bind.bind, Except.bind]
  rfl

/-- Witness for `merge_idempotent`: the first run on the empty document. -/
theorem merge_idempotent_witness :
    registerBody (J.jobj [("hooks", J.jobj [
      ("PostToolUse", J.jarr [writeGroupFull, catchGroup]),
      ("UserPromptSubmit", J.jarr [pendGroup])])]) =
    Except.ok (J.jobj [("hooks", J.jobj [
      ("PostToolUse", J.jarr [writeGroupFull, catchGroup]),
      ("UserPromptSubmit", J.jarr [pendGroup])])], []) :=
  merge_idempotent (J.jobj []) _ [memDesc, ghDesc, ghCatchDesc, pendDesc] rfl

/-! ## Fresh-document build lemmas and counting helpers -/

theorem jmem_filterGithub_false {l l' : List J} {c : String}
    (hf : filterGithub l = Except.ok l') (h : jmem c l = false) : jmem c l' = false := by
  rw [jmem_false_iff] at h ⊢
  intro hmem
  exact h (filterGithub_sub hf _ hmem)

theorem matcherIs_obj_false {kvs : List (String × J)} {pat : String}
    (h : matcherIs (J.jobj kvs) pat = false) :
    isStrEq ((jlookup "matcher" kvs).getD J.null) pat = false := by
  cases hl : jlookup "matcher" kvs with
  | none => rfl
  | some m =>
    simp only [matcherIs, jGet, hl] at h
    simpa using h

theorem loop1_none {ex es : List J}
    (hobj : ∀ e ∈ es, ∃ kvs, e = J.jobj kvs)
    (hno : ∀ e ∈ es, matcherIs e "Write|Edit|MultiEdit" = false) :
    loop1 ex es = Except.ok none := by
  induction es with
  | nil => rfl
  | cons e rest ih =>
    obtain ⟨kvs, rfl⟩ := hobj e (List.mem_cons_self _ _)
    have hm := matcherIs_obj_false (hno _ (List.mem_cons_self _ _))
    rw [loop1]
    simp only [Bind.bind, Except.bind, pyDotGet]
    rw [if_neg (by simp [hm])]
    rw [ih (fun e he => hobj e (List.mem_cons_of_mem _ he))
        (fun e he => hno e (List.mem_cons_of_mem _ he))]
    rfl

theorem loop2_none {es : List J}
    (hobj : ∀ e ∈ es, ∃ kvs, e = J.jobj kvs)
    (hno : ∀ e ∈ es, matcherIs e ".*" = false) :
    loop2 es = Except.ok none := by
  induction es with
  | nil => rfl
  | cons e rest ih =>
    obtain ⟨kvs, rfl⟩ := hobj e (List.mem_cons_self _ _)
    have hm := matcherIs_obj_false (hno _ (List.mem_cons_self _ _))
    rw [loop2]
    simp only [Bind.bind, Except.bind, pyDotGet]
    rw [if_neg (by simp [hm])]
    rw [ih (fun e he => hobj e (List.mem_cons_of_mem _ he))
        (fun e he => hno e (List.mem_cons_of_mem _ he))]
    rfl

theorem loop3_none {es : List J}
    (hobj : ∀ e ∈ es, ∃ kvs, e = J.jobj kvs)
    (hno : ∀ e ∈ es, matcherIs e ".*" = false) :
    loop3 es = Except.ok none := by
  induction es with
  | nil => rfl
  | cons e rest ih =>
    obtain ⟨kvs, rfl⟩ := hobj e (List.mem_cons_self _ _)
    have hm := matcherIs_obj_false (hno _ (List.mem_cons_self _ _))
    rw [loop3]
    simp only [Bind.bind, Except.bind, pyDotGet]
    rw [if_neg (by simp [hm])]
    rw [ih (fun e he => hobj e (List.mem_cons_of_mem _ he))
        (fun e he => hno e (List.mem_cons_of_mem _ he))]
    rfl

theorem block1_build {ex : List J} {es : List J}
    (h1 : jmem memCmd ex = false) (h2 : jmem ghCmd ex = false)
    (hobj : ∀ e ∈ es, ∃ kvs, e = J.jobj kvs)
    (hno : ∀ e ∈ es, matcherIs e "Write|Edit|MultiEdit" = false) :
    block1 ex (J.jarr es) =
      Except.ok (J.jarr (es ++ [writeGroupFull]), [memDesc, ghDesc]) := by
  rw [block1, if_neg (by rw [h1]; simp)]
  simp only [Bind.bind, Except.bind, pyIter]
  rw [loop1_none hobj hno]
  simp only [h1, h2, Bool.false_eq_true, if_false]
  rfl

theorem block2_build {ex fex : List J} {es : List J}
    (hf : filterGithub ex = Except.ok fex) (hg : jmem ghCmd fex = false)
    (hobj : ∀ e ∈ es, ∃ kvs, e = J.jobj kvs)
    (hno : ∀ e ∈ es, matcherIs e ".*" = false) :
    block2 ex (J.jarr es) = Except.ok (J.jarr (es ++ [catchGroup]), [ghCatchDesc]) := by
  rw [block2, hf]
  simp only [Bind.bind, Except.bind]
  rw [if_neg (by simp [hg])]
  simp only [Bind.bind, Except.bind, pyIter]
  rw [loop2_none hobj hno]
  rfl

theorem block3_build {ex : List J} {es : List J}
    (hp : jmem pendCmd ex = false)
    (hobj : ∀ e ∈ es, ∃ kvs, e = J.jobj kvs)
    (hno : ∀ e ∈ es, matcherIs e ".*" = false) :
    block3 ex (J.jarr es) = Except.ok (J.jarr (es ++ [pendGroup]), [pendDesc]) := by
  rw [block3, if_neg (by simp [hp])]
  simp only [Bind.bind, Except.bind, pyIter]
  rw [loop3_none hobj hno]
  rfl

theorem countGroups_prefix_zero {pat : String} {es tail : List J}
    (h : ∀ e ∈ es, matcherIs e pat = false) :
    countGroups pat (J.jarr (es ++ tail)) = countGroups pat (J.jarr tail) := by
  simp only [countGroups, List.filter_append]
  rw [List.filter_eq_nil_iff.mpr (by intro a ha; simp [h a ha])]
  simp

theorem totalCmd_prefix_zero {pat c : String} {es tail : List J}
    (h : ∀ e ∈ es, matcherIs e pat = false) :
    totalCmd pat c (J.jarr (es ++ tail)) = totalCmd pat c (J.jarr tail) := by
  simp only [totalCmd, List.map_append, List.sum_append]
  have hz : (es.map (fun e => if matcherIs e pat then cmdCount c e else 0)).sum = 0 := by
    apply List.sum_eq_zero
    intro x hx
    obtain ⟨e, he, rfl⟩ := List.mem_map.mp hx
    rw [h e he]
    simp
  rw [hz]
  simp

/-! ## Frame lemmas for the merge blocks and `ensureCats` -/

theorem setKey_setKey (k : String) (v w : J) (l : List (String × J)) :
    setKey k v (setKey k w l) = setKey k v l := by
  induction l with
  | nil => simp [setKey]
  | cons p rest ih =>
    obtain ⟨k2, w2⟩ := p
    by_cases h : k2 = k
    · simp [setKey, h]
    · simp [setKey, h, ih]

theorem frameOf_refl (x : J) : frameOf x x := Or.inl rfl

theorem frameOf_trans {a b c : J} (h1 : frameOf b a) (h2 : frameOf c b) : frameOf c a := by
  rcases h1 with rfl | ⟨kvs, hsl, t, rfl, hlk, rfl⟩
  · exact h2
  · rcases h2 with rfl | ⟨kvs2, hsl2, t2, heq, hlk2, rfl⟩
    · exact Or.inr ⟨kvs, hsl, t, rfl, hlk, rfl⟩
    · obtain rfl : setKey "hooks" (J.jarr (hsl ++ t)) kvs = kvs2 := by
        injection heq
      rw [jlookup_setKey_self] at hlk2
      obtain hsl2eq : J.jarr (hsl ++ t) = J.jarr hsl2 := by
        injection hlk2
      obtain hsl2eq : hsl ++ t = hsl2 := by injection hsl2eq
      refine Or.inr ⟨kvs, hsl, t ++ t2, rfl, hlk, ?_⟩
      rw [setKey_setKey, ← hsl2eq, List.append_assoc]

theorem appendIfMissing_frame {p : Bool} {cmd desc : String} {e : J} {r : J × List String}
    (h : appendIfMissing p cmd desc e = Except.ok r) : frameOf r.1 e := by
  rw [appendIfMissing] at h
  by_cases hp : p = true
  · rw [if_pos hp] at h
    simp only [Pure.pure, Except.pure, Except.ok.injEq] at h
    subst h
    exact frameOf_refl e
  · rw [if_neg hp] at h
    rcases exBind_ok.mp h with ⟨hsv, hget, h⟩
    rcases exBind_ok.mp h with ⟨hs2, happ, h⟩
    rcases exBind_ok.mp h with ⟨e2, hset, h⟩
    obtain ⟨kvs, rfl, hlk⟩ := pyGetItem_ok hget
    obtain ⟨xs, rfl, rfl⟩ := pyAppend_ok happ
    obtain ⟨kvs2, hk2, rfl⟩ := pySetItem_ok hset
    obtain rfl : kvs = kvs2 := by injection hk2
    simp only [Pure.pure, Except.pure, Except.ok.injEq] at h
    subst h
    exact Or.inr ⟨kvs, xs, [mkHook cmd 5], rfl, hlk, rfl⟩

theorem forall₂_frameOf_refl (l : List J) : List.Forall₂ frameOf l l :=
  List.forall₂_same.mpr (fun x _ => frameOf_refl x)

theorem forall₂_frameOf_comp {l1 l2 l3 : List J}
    (h12 : List.Forall₂ frameOf l2 l1) (h23 : List.Forall₂ frameOf l3 l2) :
    List.Forall₂ frameOf l3 l1 := by
  induction h12 generalizing l3 with
  | nil =>
    cases h23
    exact List.Forall₂.nil
  | cons hab hrest ih =>
    cases h23 with
    | cons hbc hrest2 => exact List.Forall₂.cons (frameOf_trans hab hbc) (ih hrest2)

theorem jGet_obj {d : J} {k : String} {v : J} (h : jGet d k = some v) :
    ∃ kvs, d = J.jobj kvs ∧ jlookup k kvs = some v := by
  cases d <;> simp [jGet] at h
  exact ⟨_, rfl, h⟩

theorem loop1_frame {ex es es2 : List J} {a : List String}
    (hl : loop1 ex es = Except.ok (some (es2, a))) :
    List.Forall₂ frameOf es2 es := by
  induction es generalizing es2 a with
  | nil =>
    rw [loop1] at hl
    simp [Pure.pure, Except.pure] at hl
  | cons e rest ih =>
    rw [loop1] at hl
    rcases exBind_ok.mp hl with ⟨m, hmv, hl⟩
    by_cases hpat : isStrEq m "Write|Edit|MultiEdit" = true
    · rw [if_pos hpat] at hl
      rcases exBind_ok.mp hl with ⟨p1, hap1, hl⟩
      rcases exBind_ok.mp hl with ⟨p2, hap2, hl⟩
      simp only [Pure.pure, Except.pure, Except.ok.injEq, Option.some.injEq,
        Prod.mk.injEq] at hl
      obtain ⟨hes2, -⟩ := hl
      rw [← hes2]
      exact List.Forall₂.cons
        (frameOf_trans (appendIfMissing_frame hap1) (appendIfMissing_frame hap2))
        (forall₂_frameOf_refl rest)
    · rw [if_neg hpat] at hl
      rcases exBind_ok.mp hl with ⟨r, hr, hl⟩
      cases r with
      | none => simp [Pure.pure, Except.pure] at hl
      | some pr =>
        obtain ⟨l2, a2⟩ := pr
        simp only [Option.map_some', Pure.pure, Except.pure, Except.ok.injEq,
          Option.some.injEq, Prod.mk.injEq] at hl
        obtain ⟨hes2, -⟩ := hl
        rw [← hes2]
        exact List.Forall₂.cons (frameOf_refl e) (ih hr)

theorem loop2_frame {es es2 : List J} {a : List String}
    (hl : loop2 es = Except.ok (some (es2, a))) :
    List.Forall₂ frameOf es2 es := by
  induction es generalizing es2 a with
  | nil =>
    rw [loop2] at hl
    simp [Pure.pure, Except.pure] at hl
  | cons e rest ih =>
    rw [loop2] at hl
    rcases exBind_ok.mp hl with ⟨m, hmv, hl⟩
    by_cases hpat : isStrEq m ".*" = true
    · rw [if_pos hpat] at hl
      rcases exBind_ok.mp hl with ⟨hsv, hgv, hl⟩
      rcases exBind_ok.mp hl with ⟨items, hit, hl⟩
      rcases exBind_ok.mp hl with ⟨hasGh, hgh, hl⟩
      by_cases hghb : hasGh = true
      · rw [if_pos hghb] at hl
        simp only [Pure.pure, Except.pure, Except.ok.injEq, Option.some.injEq,
          Prod.mk.injEq] at hl
        obtain ⟨hes2, -⟩ := hl
        rw [← hes2]
        exact forall₂_frameOf_refl _
      · rw [if_neg hghb] at hl
        rcases exBind_ok.mp hl with ⟨hs0, hget, hl⟩
        rcases exBind_ok.mp hl with ⟨hs2, happ, hl⟩
        rcases exBind_ok.mp hl with ⟨e2, hset, hl⟩
        obtain ⟨kvs, rfl, hlk⟩ := pyGetItem_ok hget
        obtain ⟨xs, rfl, rfl⟩ := pyAppend_ok happ
        obtain ⟨kvs2, hk2, rfl⟩ := pySetItem_ok hset
        obtain rfl : kvs = kvs2 := by injection hk2
        simp only [Pure.pure, Except.pure, Except.ok.injEq, Option.some.injEq,
          Prod.mk.injEq] at hl
        obtain ⟨hes2, -⟩ := hl
        rw [← hes2]
        exact List.Forall₂.cons
          (Or.inr ⟨kvs, xs, [mkHook ghCmd 5], rfl, hlk, rfl⟩)
          (forall₂_frameOf_refl rest)
    · rw [if_neg hpat] at hl
      rcases exBind_ok.mp hl with ⟨r, hr, hl⟩
      cases r with
      | none => simp [Pure.pure, Except.pure] at hl
      | some pr =>
        obtain ⟨l2, a2⟩ := pr
        simp only [Option.map_some', Pure.pure, Except.pure, Except.ok.injEq,
          Option.some.injEq, Prod.mk.injEq] at hl
        obtain ⟨hes2, -⟩ := hl
        rw [← hes2]
        exact List.Forall₂.cons (frameOf_refl e) (ih hr)

theorem loop3_frame {es es2 : List J} {a : List String}
    (hl : loop3 es = Except.ok (some (es2, a))) :
    List.Forall₂ frameOf es2 es := by
  induction es generalizing es2 a with
  | nil =>
    rw [loop3] at hl
    simp [Pure.pure, Except.pure] at hl
  | cons e rest ih =>
    rw [loop3] at hl
    rcases exBind_ok.mp hl with ⟨m, hmv, hl⟩
    by_cases hpat : isStrEq m ".*" = true
    · rw [if_pos hpat] at hl
      rcases exBind_ok.mp hl with ⟨hs0, hget, hl⟩
      rcases exBind_ok.mp hl with ⟨hs2, happ, hl⟩
      rcases exBind_ok.mp hl with ⟨e2, hset, hl⟩
      obtain ⟨kvs, rfl, hlk⟩ := pyGetItem_ok hget
      obtain ⟨xs, rfl, rfl⟩ := pyAppend_ok happ
      obtain ⟨kvs2, hk2, rfl⟩ := pySetItem_ok hset
      obtain rfl : kvs = kvs2 := by injection hk2
      simp only [Pure.pure, Except.pure, Except.ok.injEq, Option.some.injEq,
        Prod.mk.injEq] at hl
      obtain ⟨hes2, -⟩ := hl
      rw [← hes2]
      exact List.Forall₂.cons
        (Or.inr ⟨kvs, xs, [mkHook pendCmd 3], rfl, hlk, rfl⟩)
        (forall₂_frameOf_refl rest)
    · rw [if_neg hpat] at hl
      rcases exBind_ok.mp hl with ⟨r, hr, hl⟩
      cases r with
      | none => simp [Pure.pure, Except.pure] at hl
      | some pr =>
        obtain ⟨l2, a2⟩ := pr
        simp only [Option.map_some', Pure.pure, Except.pure, Except.ok.injEq,
          Option.some.injEq, Prod.mk.injEq] at hl
        obtain ⟨hes2, -⟩ := hl
        rw [← hes2]
        exact List.Forall₂.cons (frameOf_refl e) (ih hr)

theorem block1_frame {ex es : List J} {r : J × List String}
    (hb : block1 ex (J.jarr es) = Except.ok r) :
    ∃ front tail, r.1 = J.jarr (front ++ tail) ∧ List.Forall₂ frameOf front es := by
  rw [block1] at hb
  by_cases hg : (jmem memCmd ex && jmem ghCmd ex) = true
  · rw [if_pos hg] at hb
    simp only [Pure.pure, Except.pure, Except.ok.injEq] at hb
    subst hb
    exact ⟨es, [], by simp, forall₂_frameOf_refl es⟩
  · rw [if_neg hg] at hb
    rcases exBind_ok.mp hb with ⟨es0, hiter, hb⟩
    obtain rfl : es = es0 := by
      simp only [pyIter, Except.ok.injEq] at hiter
      exact hiter
    rcases exBind_ok.mp hb with ⟨r0, hl, hb⟩
    cases r0 with
    | some p =>
      obtain ⟨es2, a2⟩ := p
      simp only [Pure.pure, Except.pure, Except.ok.injEq] at hb
      subst hb
      exact ⟨es2, [], by simp, loop1_frame hl⟩
    | none =>
      cases hm1 : jmem memCmd ex with
      | true =>
        cases hm2 : jmem ghCmd ex with
        | true =>
          exfalso
          rw [hm1, hm2] at hg
          exact hg rfl
        | false =>
          rw [hm1, hm2] at hb
          simp only [List.append_nil, List.nil_append, eq_self_iff_true, if_true, if_false,
            Bool.false_eq_true, Bool.true_eq_false, ite_true, ite_false,
            List.isEmpty_cons] at hb
          rcases exBind_ok.mp hb with ⟨cat2, happ, hb⟩
          obtain ⟨xs, hxs, rfl⟩ := pyAppend_ok happ
          obtain rfl : es = xs := by injection hxs
          simp only [Pure.pure, Except.pure, Except.ok.injEq] at hb
          subst hb
          exact ⟨es, [_], rfl, forall₂_frameOf_refl es⟩
      | false =>
        cases hm2 : jmem ghCmd ex with
        | true =>
          rw [hm1, hm2] at hb
          simp only [List.append_nil, List.nil_append, eq_self_iff_true, if_true, if_false,
            Bool.false_eq_true, Bool.true_eq_false, ite_true, ite_false,
            List.isEmpty_cons] at hb
          rcases exBind_ok.mp hb with ⟨cat2, happ, hb⟩
          obtain ⟨xs, hxs, rfl⟩ := pyAppend_ok happ
          obtain rfl : es = xs := by injection hxs
          simp only [Pure.pure, Except.pure, Except.ok.injEq] at hb
          subst hb
          exact ⟨es, [_], rfl, forall₂_frameOf_refl es⟩
        | false =>
          rw [hm1, hm2] at hb
          simp only [List.append_nil, List.nil_append, eq_self_iff_true, if_true, if_false,
            Bool.false_eq_true, Bool.true_eq_false, ite_true, ite_false,
            List.isEmpty_cons] at hb
          rcases exBind_ok.mp hb with ⟨cat2, happ, hb⟩
          obtain ⟨xs, hxs, rfl⟩ := pyAppend_ok happ
          obtain rfl : es = xs := by injection hxs
          simp only [Pure.pure, Except.pure, Except.ok.injEq] at hb
          subst hb
          exact ⟨es, [_], rfl, forall₂_frameOf_refl es⟩

theorem block2_frame {ex es : List J} {r : J × List String}
    (hb : block2 ex (J.jarr es) = Except.ok r) :
    ∃ front tail, r.1 = J.jarr (front ++ tail) ∧ List.Forall₂ frameOf front es := by
  rw [block2] at hb
  rcases exBind_ok.mp hb with ⟨f, hf, hb⟩
  by_cases hgf : jmem ghCmd f = true
  · rw [if_pos hgf] at hb
    simp only [Pure.pure, Except.pure, Except.ok.injEq] at hb
    subst hb
    exact ⟨es, [], by simp, forall₂_frameOf_refl es⟩
  · rw [if_neg hgf] at hb
    rcases exBind_ok.mp hb with ⟨es0, hiter, hb⟩
    obtain rfl : es = es0 := by
      simp only [pyIter, Except.ok.injEq] at hiter
      exact hiter
    rcases exBind_ok.mp hb with ⟨r0, hl, hb⟩
    cases r0 with
    | some p =>
      obtain ⟨es2, a2⟩ := p
      simp only [Pure.pure, Except.pure, Except.ok.injEq] at hb
      subst hb
      exact ⟨es2, [], by simp, loop2_frame hl⟩
    | none =>
      rcases exBind_ok.mp hb with ⟨cat2, happ, hb⟩
      obtain ⟨xs, hxs, rfl⟩ := pyAppend_ok happ
      obtain rfl : es = xs := by injection hxs
      simp only [Pure.pure, Except.pure, Except.ok.injEq] at hb
      subst hb
      exact ⟨es, [_], rfl, forall₂_frameOf_refl es⟩

theorem block3_frame {ex es : List J} {r : J × List String}
    (hb : block3 ex (J.jarr es) = Except.ok r) :
    ∃ front tail, r.1 = J.jarr (front ++ tail) ∧ List.Forall₂ frameOf front es := by
  rw [block3] at hb
  by_cases hg : jmem pendCmd ex = true
  · rw [if_pos hg] at hb
    simp only [Pure.pure, Except.pure, Except.ok.injEq] at hb
    subst hb
    exact ⟨es, [], by simp, forall₂_frameOf_refl es⟩
  · rw [if_neg hg] at hb
    rcases exBind_ok.mp hb with ⟨es0, hiter, hb⟩
    obtain rfl : es = es0 := by
      simp only [pyIter, Except.ok.injEq] at hiter
      exact hiter
    rcases exBind_ok.mp hb with ⟨r0, hl, hb⟩
    cases r0 with
    | some p =>
      obtain ⟨es2, a2⟩ := p
      simp only [Pure.pure, Except.pure, Except.ok.injEq] at hb
      subst hb
      exact ⟨es2, [], by simp, loop3_frame hl⟩
    | none =>
      rcases exBind_ok.mp hb with ⟨cat2, happ, hb⟩
      obtain ⟨xs, hxs, rfl⟩ := pyAppend_ok happ
      obtain rfl : es = xs := by injection hxs
      simp only [Pure.pure, Except.pure, Except.ok.injEq] at hb
      subst hb
      exact ⟨es, [_], rfl, forall₂_frameOf_refl es⟩

theorem ensureHooksKey_root {d s : J} (h : ensureHooksKey d = Except.ok s) :
    ∀ k, k ≠ "hooks" → jGet s k = jGet d k := by
  rw [ensureHooksKey] at h
  rcases exBind_ok.mp h with ⟨c, hc, h⟩
  split at h
  · simp only [Pure.pure, Except.pure, Except.ok.injEq] at h
    subst h
    intro k hk
    rfl
  · obtain ⟨kvs, rfl, rfl⟩ := pySetItem_ok h
    intro k hk
    simp only [jGet, jlookup_setKey_other hk]

theorem ensureCatKey_root {cat : String} {s s2 : J} (h : ensureCatKey cat s = Except.ok s2) :
    ∀ k, k ≠ "hooks" → jGet s2 k = jGet s k := by
  rw [ensureCatKey] at h
  rcases exBind_ok.mp h with ⟨hv, hgv, h⟩
  rcases exBind_ok.mp h with ⟨cp, hcp, h⟩
  split at h
  · simp only [Pure.pure, Except.pure, Except.ok.injEq] at h
    subst h
    intro k hk
    rfl
  · rcases exBind_ok.mp h with ⟨h2, hset2, h⟩
    obtain ⟨skvs, rfl, rfl⟩ := pySetItem_ok h
    intro k hk
    simp only [jGet, jlookup_setKey_other hk]

theorem ensureCats_root {d s : J} (h : ensureCats d = Except.ok s) :
    ∀ k, k ≠ "hooks" → jGet s k = jGet d k := by
  rw [ensureCats] at h
  rcases exBind_ok.mp h with ⟨s1, h1, h⟩
  rcases exBind_ok.mp h with ⟨s2, h2, h⟩
  intro k hk
  rw [ensureCatKey_root h k hk, ensureCatKey_root h2 k hk, ensureHooksKey_root h1 k hk]

theorem ensureHooksKey_cat {d s : J} (h : ensureHooksKey d = Except.ok s)
    {c : String} {v : J} (hc : catOf d c = some v) : s = d := by
  rw [ensureHooksKey] at h
  rcases exBind_ok.mp h with ⟨cb, hcb, h⟩
  rw [catOf] at hc
  cases hh : jGet d "hooks" with
  | none => rw [hh] at hc; cases hc
  | some h0 =>
    obtain ⟨kvs, rfl, hlk⟩ := jGet_obj hh
    have hcbt : cb = true := by
      simp only [pyContains, Except.ok.injEq] at hcb
      rw [← hcb]
      exact any_key_of_lookup hlk
    rw [if_pos hcbt] at h
    simp only [Pure.pure, Except.pure, Except.ok.injEq] at h
    exact h.symm

theorem ensureCatKey_cat {cat : String} {s s2 : J} (h : ensureCatKey cat s = Except.ok s2)
    {c : String} {v : J} (hc : catOf s c = some v) : catOf s2 c = some v := by
  rw [ensureCatKey] at h
  rcases exBind_ok.mp h with ⟨hv, hgv, h⟩
  rcases exBind_ok.mp h with ⟨cp, hcp, h⟩
  rw [catOf] at hc
  cases hh : jGet s "hooks" with
  | none => rw [hh] at hc; cases hc
  | some h0 =>
    rw [hh] at hc
    obtain ⟨skvs, rfl, hlk⟩ := jGet_obj hh
    obtain ⟨hkvsl, rfl, hlkc⟩ := jGet_obj hc
    have hveq : hv = J.jobj hkvsl := by
      simp only [pyGetItem, hlk, Except.ok.injEq] at hgv
      exact hgv.symm
    subst hveq
    by_cases hcpt : cp = true
    · rw [if_pos hcpt] at h
      simp only [Pure.pure, Except.pure, Except.ok.injEq] at h
      subst h
      rw [catOf]
      simp only [jGet, hlk]
      exact hlkc
    · rw [if_neg hcpt] at h
      have hcne : c ≠ cat := by
        intro hceq
        subst hceq
        apply hcpt
        simp only [pyContains, Except.ok.injEq] at hcp
        rw [← hcp]
        exact any_key_of_lookup hlkc
      rcases exBind_ok.mp h with ⟨h2, hset2, h⟩
      obtain ⟨hkvsl2, heq2, rfl⟩ := pySetItem_ok hset2
      obtain rfl : hkvsl = hkvsl2 := by injection heq2
      obtain ⟨skvs2, heq3, rfl⟩ := pySetItem_ok h
      obtain rfl : skvs = skvs2 := by injection heq3
      rw [catOf]
      simp only [jGet, jlookup_setKey_self, jlookup_setKey_other hcne]
      exact hlkc

theorem ensureCats_cat {d s : J} (h : ensureCats d = Except.ok s)
    {c : String} {v : J} (hc : catOf d c = some v) : catOf s c = some v := by
  rw [ensureCats] at h
  rcases exBind_ok.mp h with ⟨s1, h1, hx⟩
  rcases exBind_ok.mp hx with ⟨s2, h2, h3⟩
  obtain rfl : s1 = d := ensureHooksKey_cat h1 hc
  exact ensureCatKey_cat h3 (ensureCatKey_cat h2 hc)

/-! ## C2 — post-merge registration invariant (amended), C8 and C6 -/

/-- C2 (amended): on a well-formed document in which none of the three
commands occurs among the scanned command values and no group carries the
desired patterns in the scanned categories, one merge run registers every
desired binding with exactly one MatcherGroup carrying its pattern in the
target category and exactly one CommandBinding carrying its command inside
the groups with that pattern (the unrestricted claim is refuted by
`unique_binding_cex`). -/
theorem unique_binding_fresh (d : J) (skvs hkvs : List (String × J))
    (es us ex fex : List J)
    (hens : ensureCats d = Except.ok (J.jobj skvs))
    (hlkh : jlookup "hooks" skvs = some (J.jobj hkvs))
    (hlkp : jlookup "PostToolUse" hkvs = some (J.jarr es))
    (hlku : jlookup "UserPromptSubmit" hkvs = some (J.jarr us))
    (hscan : scanCommands (J.jobj skvs) = Except.ok ex)
    (hf : filterGithub ex = Except.ok fex)
    (hm : jmem memCmd ex = false) (hg : jmem ghCmd ex = false)
    (hp : jmem pendCmd ex = false)
    (hobj1 : ∀ e ∈ es, ∃ kvs, e = J.jobj kvs)
    (hobj2 : ∀ e ∈ us, ∃ kvs, e = J.jobj kvs)
    (hw : ∀ e ∈ es, matcherIs e "Write|Edit|MultiEdit" = false)
    (hs1 : ∀ e ∈ es, matcherIs e ".*" = false)
    (hs2 : ∀ e ∈ us, matcherIs e ".*" = false) :
    ∃ d', registerBody d = Except.ok (d', [memDesc, ghDesc, ghCatchDesc, pendDesc]) ∧
      catOf d' "PostToolUse" = some (J.jarr (es ++ [writeGroupFull, catchGroup])) ∧
      catOf d' "UserPromptSubmit" = some (J.jarr (us ++ [pendGroup])) ∧
      countGroups "Write|Edit|MultiEdit" (J.jarr (es ++ [writeGroupFull, catchGroup])) = 1 ∧
      totalCmd "Write|Edit|MultiEdit" memCmd (J.jarr (es ++ [writeGroupFull, catchGroup])) = 1 ∧
      totalCmd "Write|Edit|MultiEdit" ghCmd (J.jarr (es ++ [writeGroupFull, catchGroup])) = 1 ∧
      countGroups ".*" (J.jarr (es ++ [writeGroupFull, catchGroup])) = 1 ∧
      totalCmd ".*" ghCmd (J.jarr (es ++ [writeGroupFull, catchGroup])) = 1 ∧
      countGroups ".*" (J.jarr (us ++ [pendGroup])) = 1 ∧
      totalCmd ".*" pendCmd (J.jarr (us ++ [pendGroup])) = 1 := by
  have hgf : jmem ghCmd fex = false := jmem_filterGithub_false hf hg
  have hb1 := block1_build hm hg hobj1 hw
  have hobj1' : ∀ e ∈ es ++ [writeGroupFull], ∃ kvs, e = J.jobj kvs := by
    intro e he
    rcases List.mem_append.mp he with he | he
    · exact hobj1 e he
    · rcases List.mem_cons.mp he with rfl | he
      · exact ⟨_, rfl⟩
      · cases he
  have hs1' : ∀ e ∈ es ++ [writeGroupFull], matcherIs e ".*" = false := by
    intro e he
    rcases List.mem_append.mp he with he | he
    · exact hs1 e he
    · rcases List.mem_cons.mp he with rfl | he
      · decide
      · cases he
  have hb2 := block2_build hf hgf hobj1' hs1'
  have hb3 := block3_build hp hobj2 hs2
  refine ⟨J.jobj (setKey "hooks" (J.jobj (setKey "UserPromptSubmit"
      (J.jarr (us ++ [pendGroup])) (setKey "PostToolUse"
      (J.jarr (es ++ [writeGroupFull, catchGroup])) hkvs))) skvs),
    ?_, ?_, ?_, ?_, ?_, ?_, ?_, ?_, ?_, ?_⟩
  · rw [registerBody, hens]
    simp only [Bind.bind, Except.bind]
    rw [hscan]
    simp only [pyGetItem, hlkh]
    rw [hlkp]
    simp only [Bind.bind, Except.bind]
    rw [hb1]
    simp only [Bind.bind, Except.bind]
    rw [hb2]
    simp only [Bind.bind, Except.bind]
    rw [hlku]
    simp only [Bind.bind, Except.bind]
    rw [hb3]
    simp only [pySetItem, Bind.bind, Except.bind, List.append_assoc]
    rfl
  · simp only [catOf, jGet, jlookup_setKey_self,
      jlookup_setKey_other (show "PostToolUse" ≠ "UserPromptSubmit" by decide)]
  · simp only [catOf, jGet, jlookup_setKey_self]
  · rw [countGroups_prefix_zero hw]
    decide
  · rw [totalCmd_prefix_zero hw]
    decide
  · rw [totalCmd_prefix_zero hw]
    decide
  · rw [countGroups_prefix_zero hs1]
    decide
  · rw [totalCmd_prefix_zero hs1]
    decide
  · rw [countGroups_prefix_zero hs2]
    decide
  · rw [totalCmd_prefix_zero hs2]
    decide

/-- Witness for `unique_binding_fresh`: the empty document. -/
theorem unique_binding_fresh_witness :
    ∃ d', registerBody (J.jobj []) = Except.ok (d', [memDesc, ghDesc, ghCatchDesc, pendDesc]) ∧
      catOf d' "PostToolUse" = some (J.jarr [writeGroupFull, catchGroup]) ∧
      catOf d' "UserPromptSubmit" = some (J.jarr [pendGroup]) ∧
      countGroups "Write|Edit|MultiEdit" (J.jarr [writeGroupFull, catchGroup]) = 1 ∧
      totalCmd "Write|Edit|MultiEdit" memCmd (J.jarr [writeGroupFull, catchGroup]) = 1 ∧
      totalCmd "Write|Edit|MultiEdit" ghCmd (J.jarr [writeGroupFull, catchGroup]) = 1 ∧
      countGroups ".*" (J.jarr [writeGroupFull, catchGroup]) = 1 ∧
      totalCmd ".*" ghCmd (J.jarr [writeGroupFull, catchGroup]) = 1 ∧
      countGroups ".*" (J.jarr [pendGroup]) = 1 ∧
      totalCmd ".*" pendCmd (J.jarr [pendGroup]) = 1 :=
  unique_binding_fresh (J.jobj [])
    [("hooks", J.jobj [("PostToolUse", J.jarr []), ("UserPromptSubmit", J.jarr [])])]
    [("PostToolUse", J.jarr []), ("UserPromptSubmit", J.jarr [])]
    [] [] [] [] rfl rfl rfl rfl rfl rfl rfl rfl rfl
    (fun e he => absurd he (List.not_mem_nil e))
    (fun e he => absurd he (List.not_mem_nil e))
    (fun e he => absurd he (List.not_mem_nil e))
    (fun e he => absurd he (List.not_mem_nil e))
    (fun e he => absurd he (List.not_mem_nil e))

/-- C8: group reuse and insertion order — when a `'Write|Edit|MultiEdit'`
MatcherGroup already exists and the github command is not yet registered, the
new CommandBinding is appended to that existing group's `hooks` list after
the pre-existing entries, and the category still holds exactly one group with
that pattern. -/
theorem group_reuse (d : J) (skvs hkvs gkvs : List (String × J)) (hs : List J)
    (ex fex : List J)
    (hens : ensureCats d = Except.ok (J.jobj skvs))
    (hlkh : jlookup "hooks" skvs = some (J.jobj hkvs))
    (hlkp : jlookup "PostToolUse" hkvs = some (J.jarr [J.jobj gkvs]))
    (hlku : jlookup "UserPromptSubmit" hkvs = some (J.jarr []))
    (hmat : jlookup "matcher" gkvs = some (J.js "Write|Edit|MultiEdit"))
    (hhs : jlookup "hooks" gkvs = some (J.jarr hs))
    (hscan : scanCommands (J.jobj skvs) = Except.ok ex)
    (hf : filterGithub ex = Except.ok fex)
    (hm : jmem memCmd ex = true) (hg : jmem ghCmd ex = false)
    (hp : jmem pendCmd ex = true) :
    registerBody d = Except.ok (J.jobj (setKey "hooks" (J.jobj
        (setKey "UserPromptSubmit" (J.jarr [])
        (setKey "PostToolUse" (J.jarr [J.jobj (setKey "hooks"
          (J.jarr (hs ++ [mkHook ghCmd 5])) gkvs), catchGroup]) hkvs))) skvs),
      [ghDesc, ghCatchDesc]) ∧
    countGroups "Write|Edit|MultiEdit" (J.jarr [J.jobj (setKey "hooks"
      (J.jarr (hs ++ [mkHook ghCmd 5])) gkvs), catchGroup]) = 1 ∧
    jGet (J.jobj (setKey "hooks" (J.jarr (hs ++ [mkHook ghCmd 5])) gkvs)) "hooks" =
      some (J.jarr (hs ++ [mkHook ghCmd 5])) := by
  have hloop1 : loop1 ex [J.jobj gkvs] = Except.ok
      (some ([J.jobj (setKey "hooks" (J.jarr (hs ++ [mkHook ghCmd 5])) gkvs)], [ghDesc])) := by
    rw [loop1]
    simp only [Bind.bind, Except.bind, pyDotGet, hmat, Option.getD]
    rw [if_pos (show isStrEq (J.js "Write|Edit|MultiEdit") "Write|Edit|MultiEdit" = true
      by decide)]
    rw [appendIfMissing, if_pos hm]
    simp only [Bind.bind, Except.bind, Pure.pure, Except.pure]
    rw [appendIfMissing, if_neg (by simp [hg])]
    simp only [Bind.bind, Except.bind, pyGetItem, hhs, pyAppend, pySetItem,
      Pure.pure, Except.pure]
    rfl
  have hb1 : block1 ex (J.jarr [J.jobj gkvs]) = Except.ok
      (J.jarr [J.jobj (setKey "hooks" (J.jarr (hs ++ [mkHook ghCmd 5])) gkvs)], [ghDesc]) := by
    rw [block1, if_neg (by rw [hg]; simp)]
    simp only [Bind.bind, Except.bind, pyIter]
    rw [hloop1]
    rfl
  have hgf : jmem ghCmd fex = false := jmem_filterGithub_false hf hg
  have hmg2 : matcherIs (J.jobj (setKey "hooks"
      (J.jarr (hs ++ [mkHook ghCmd 5])) gkvs)) ".*" = false := by
    simp only [matcherIs, jGet, jlookup_setKey_other (show "matcher" ≠ "hooks" by decide), hmat]
    decide
  have hmg2w : matcherIs (J.jobj (setKey "hooks"
      (J.jarr (hs ++ [mkHook ghCmd 5])) gkvs)) "Write|Edit|MultiEdit" = true := by
    simp only [matcherIs, jGet, jlookup_setKey_other (show "matcher" ≠ "hooks" by decide), hmat]
    decide
  have hmcgw : matcherIs catchGroup "Write|Edit|MultiEdit" = false := by decide
  have hb2 := @block2_build ex fex
    [J.jobj (setKey "hooks" (J.jarr (hs ++ [mkHook ghCmd 5])) gkvs)] hf hgf
    (by
      intro e he
      rcases List.mem_cons.mp he with rfl | he
      · exact ⟨_, rfl⟩
      · exact absurd he (List.not_mem_nil e))
    (by
      intro e he
      rcases List.mem_cons.mp he with rfl | he
      · exact hmg2
      · exact absurd he (List.not_mem_nil e))
  have hb3 : block3 ex (J.jarr []) = Except.ok (J.jarr [], []) := block3_skip hp
  refine ⟨?_, ?_, ?_⟩
  · rw [registerBody, hens]
    simp only [Bind.bind, Except.bind]
    rw [hscan]
    simp only [pyGetItem, hlkh]
    rw [hlkp]
    simp only [Bind.bind, Except.bind]
    rw [hb1]
    simp only [Bind.bind, Except.bind]
    rw [hb2]
    simp only [Bind.bind, Except.bind]
    rw [hlku]
    simp only [Bind.bind, Except.bind]
    rw [hb3]
    simp only [pySetItem, Bind.bind, Except.bind]
    rfl
  · simp [countGroups, hmg2w, hmcgw]
  · simp only [jGet, jlookup_setKey_self]

/-- Witness for `group_reuse`: a document with one half-filled Write group. -/
theorem group_reuse_witness :
    registerBody reuseDoc = Except.ok (J.jobj (setKey "hooks" (J.jobj
        (setKey "UserPromptSubmit" (J.jarr [])
        (setKey "PostToolUse" (J.jarr [J.jobj (setKey "hooks"
          (J.jarr (reuseHooks ++ [mkHook ghCmd 5])) reuseGroupKvs), catchGroup])
          reuseHkvs))) reuseSkvs),
      [ghDesc, ghCatchDesc]) ∧
    countGroups "Write|Edit|MultiEdit" (J.jarr [J.jobj (setKey "hooks"
      (J.jarr (reuseHooks ++ [mkHook ghCmd 5])) reuseGroupKvs), catchGroup]) = 1 ∧
    jGet (J.jobj (setKey "hooks" (J.jarr (reuseHooks ++ [mkHook ghCmd 5])) reuseGroupKvs))
        "hooks" = some (J.jarr (reuseHooks ++ [mkHook ghCmd 5])) :=
  group_reuse reuseDoc reuseSkvs reuseHkvs reuseGroupKvs reuseHooks
    [J.js memCmd, J.js pendCmd] [] rfl rfl rfl rfl rfl rfl rfl rfl rfl rfl rfl

/-- C6: frame preservation — a successful merge run leaves every root key
other than `'hooks'` unchanged, and maps the pre-existing MatcherGroups of
each scanned category to a prefix of the new category list in which each
group is either untouched or extended only by appending to its `hooks` list
(so unknown sibling keys of MatcherGroups and CommandBindings survive). -/
theorem frame_preservation (d d' : J) (a : List String)
    (hrun : registerBody d = Except.ok (d', a)) :
    (∀ k, k ≠ "hooks" → jGet d' k = jGet d k) ∧
    (∀ es, catOf d "PostToolUse" = some (J.jarr es) →
      ∃ front tail, catOf d' "PostToolUse" = some (J.jarr (front ++ tail)) ∧
        List.Forall₂ frameOf front es) ∧
    (∀ es, catOf d "UserPromptSubmit" = some (J.jarr es) →
      ∃ front tail, catOf d' "UserPromptSubmit" = some (J.jarr (front ++ tail)) ∧
        List.Forall₂ frameOf front es) := by
  obtain ⟨skvs, hkvs, ex, ptu, p1, p2, ups, u1, a1, a2, a3,
    hens, hscan, hlkh, hlkp, hb1, hb2, hlku, hb3, ha, hd'⟩ := registerBody_unpack hrun
  subst hd'
  refine ⟨?_, ?_, ?_⟩
  · intro k hk
    have h1 : jlookup k (setKey "hooks"
        (J.jobj (setKey "UserPromptSubmit" u1 (setKey "PostToolUse" p2 hkvs))) skvs) =
        jlookup k skvs := jlookup_setKey_other hk _ _
    calc jGet (J.jobj (setKey "hooks"
          (J.jobj (setKey "UserPromptSubmit" u1 (setKey "PostToolUse" p2 hkvs))) skvs)) k
        = jGet (J.jobj skvs) k := h1
      _ = jGet d k := ensureCats_root hens k hk
  · intro es hes
    have hcat : catOf (J.jobj skvs) "PostToolUse" = some (J.jarr es) :=
      ensureCats_cat hens hes
    have hptu : ptu = J.jarr es := by
      rw [catOf] at hcat
      simp only [jGet, hlkh] at hcat
      rw [hlkp] at hcat
      injection hcat
    subst hptu
    obtain ⟨f1, t1, hp1, hff1⟩ := block1_frame hb1
    rw [show (p1, a1).1 = p1 from rfl] at hp1
    rw [hp1] at hb2
    obtain ⟨f2, t2, hp2, hff2⟩ := block2_frame hb2
    rw [show (p2, a2).1 = p2 from rfl] at hp2
    have hsplit1 := List.forall₂_take_append _ _ _ hff2
    have hff : List.Forall₂ frameOf (f2.take f1.length) es :=
      forall₂_frameOf_comp hff1 hsplit1
    refine ⟨f2.take f1.length, f2.drop f1.length ++ t2, ?_, hff⟩
    rw [catOf]
    simp only [jGet, jlookup_setKey_self,
      jlookup_setKey_other (show "PostToolUse" ≠ "UserPromptSubmit" by decide)]
    rw [hp2, ← List.take_append_drop f1.length f2, List.append_assoc]
    simp [List.take_append_drop]
  · intro es hes
    have hcat : catOf (J.jobj skvs) "UserPromptSubmit" = some (J.jarr es) :=
      ensureCats_cat hens hes
    have hups : ups = J.jarr es := by
      rw [catOf] at hcat
      simp only [jGet, hlkh] at hcat
      rw [hlku] at hcat
      injection hcat
    subst hups
    obtain ⟨f3, t3, hu1, hff3⟩ := block3_frame hb3
    rw [show (u1, a3).1 = u1 from rfl] at hu1
    refine ⟨f3, t3, ?_, hff3⟩
    rw [catOf]
    simp only [jGet, jlookup_setKey_self]
    rw [hu1]

/-- Witness for `frame_preservation`: the unknown-field document `frameDoc`. -/
theorem frame_preservation_witness :
    (∀ k, k ≠ "hooks" → jGet frameResult k = jGet frameDoc k) ∧
    (∀ es, catOf frameDoc "PostToolUse" = some (J.jarr es) →
      ∃ front tail, catOf frameResult "PostToolUse" = some (J.jarr (front ++ tail)) ∧
        List.Forall₂ frameOf front es) ∧
    (∀ es, catOf frameDoc "UserPromptSubmit" = some (J.jarr es) →
      ∃ front tail, catOf frameResult "UserPromptSubmit" = some (J.jarr (front ++ tail)) ∧
        List.Forall₂ frameOf front es) :=
  frame_preservation frameDoc frameResult
    [memDesc, ghDesc, ghCatchDesc, pendDesc] rfl
